import Mathlib

/-!
Verification of the moivetext staged video-narration pipeline.

Shallow embedding of the four pipeline stages (`step1_preprocess.py`,
`step2_understand.py`, `step3_generate_script.py`, `step4_synthesize_audio.py`).
Python floats are modelled as rationals; Python `round(x, 3)` is modelled by
round-half-even on rationals; Python strings are modelled as `String`
(lists of unicode scalar values); fallible code returns `Option`/`Except`.
-/

/-! ## Common numeric and character utilities -/

/-- The decimal digit character for a digit `d < 10` (models Python decimal
rendering of nonnegative integers). -/
def decimalChar (d : Nat) : Char := Char.ofNat (48 + d)

/-- Decimal digit characters of a natural number, most significant first. -/
def natDigitsL (n : Nat) : List Char :=
  if n = 0 then ['0'] else ((Nat.digits 10 n).map decimalChar).reverse

/-- Is `c` an ASCII decimal digit? -/
def isDigitChar (c : Char) : Bool := 48 ≤ c.toNat && c.toNat ≤ 57

/-- Numeric value of an ASCII digit character. -/
def digitVal (c : Char) : Nat := c.toNat - 48

/-- Value of a big-endian list of decimal digit characters. -/
def digitsValue (ds : List Char) : Nat := ds.foldl (fun a c => a * 10 + digitVal c) 0

/-- Round-half-even on rationals: the model of Python `round(x)` (banker's
rounding, which Python applies to the exact value of the float). -/
def rnd (x : ℚ) : ℤ :=
  if x - ⌊x⌋ < 1 / 2 then ⌊x⌋
  else if 1 / 2 < x - ⌊x⌋ then ⌊x⌋ + 1
  else if ⌊x⌋ % 2 = 0 then ⌊x⌋ else ⌊x⌋ + 1

/-- Model of Python `round(x, 3)`. -/
def round3 (x : ℚ) : ℚ := (rnd (x * 1000) : ℚ) / 1000

/-- Whitespace as recognised by Python `str.strip()` and the regex class
`\s` on `str` patterns (ASCII whitespace plus the common Unicode spaces
relevant to the pipeline's Chinese text). -/
def isPySpace (c : Char) : Bool :=
  c = ' ' || c = '\t' || c = '\n' || c = '\r' || c = '\x0b' || c = '\x0c' ||
  c = ' ' || c = '　'

/-- Model of Python `str.strip()` on a list of characters: drop leading and
trailing whitespace. -/
def pyStripL (cs : List Char) : List Char :=
  (cs.dropWhile isPySpace).rdropWhile isPySpace

/-- Model of Python `str.strip()` on a string. -/
def pyStrip (s : String) : String := String.mk (pyStripL s.data)

/-! ## step4_synthesize_audio.py — the utterance splitter

`split_sentences(text)` is
`re.split(r'(?<=[。？！…])\s*', text.strip())` followed by
`[s.strip() for s in sentences if s.strip()]`.

The regex splits immediately after every sentence-final mark, consuming any
whitespace that follows the mark; empty fragments are discarded after
stripping. -/

/-- The sentence-final punctuation set `。？！…` of the splitter's regex. -/
def isSentMark (c : Char) : Bool := c = '。' || c = '？' || c = '！' || c = '…'

/-- One scan of `re.split(r'(?<=[。？！…])\s*', ·)`: a split point sits
immediately after every sentence-final mark, and the whitespace run following
the mark is consumed by the `\s*` of the pattern.  `skip` records whether the
scan is inside that whitespace run, `acc` is the current fragment, reversed. -/
def reSplitGo : Bool → List Char → List Char → List (List Char)
  | _, [], acc => [acc.reverse]
  | skip, c :: rest, acc =>
    if skip && isPySpace c then reSplitGo true rest acc
    else if isSentMark c then (acc.reverse ++ [c]) :: reSplitGo true rest []
    else reSplitGo false rest (c :: acc)

/-- Model of `re.split(r'(?<=[。？！…])\s*', cs)`. -/
def reSplit (cs : List Char) : List (List Char) := reSplitGo false cs []

/-- Model of `split_sentences` at the character-list level. -/
def split_sentencesL (cs : List Char) : List (List Char) :=
  ((reSplit (pyStripL cs)).map pyStripL).filter (fun x => x ≠ [])

/-- `split_sentences(text)` from `step4_synthesize_audio.py`. -/
def split_sentences (text : String) : List String :=
  (split_sentencesL text.data).map String.mk

/-- The synthesis jobs issued by `main` in `step4_synthesize_audio.py`:
one call to the speech-synthesis pipeline per split sentence, enumerated
1-based (`for i, sentence in enumerate(sentences, 1)`). -/
def synthesisJobs (script : String) : List (Nat × String) :=
  (split_sentences script).enum.map (fun p => (p.1 + 1, p.2))

/-! ## step3_generate_script.py — the context window builder -/

/-- A record of `output_step2/scenes_enhanced.json` as produced by
`step2_understand.py`: the time/identity fields copied from stage 1 plus the
enrichment fields. -/
structure EnrichedScene where
  scene_id : Nat
  start_time : ℚ
  end_time : ℚ
  duration : ℚ
  asr_text : String
  vision_caption : String
  combined_context : String
deriving DecidableEq

/-- Python `f"\x7b{start:.1f}\x7d"`-style fixed-point formatting with one
decimal digit (round-half-even), for the `[{start:.1f}s]` prefix of a
context line. -/
def fmt1 (q : ℚ) : String :=
  let k := rnd (q * 10)
  (if k < 0 then "-" else "") ++
    String.mk (natDigitsL (k.natAbs / 10)) ++ "." ++ String.mk (natDigitsL (k.natAbs % 10))

/-- The line `build_context` emits for one included scene:
`f"[{start:.1f}s] {scene['combined_context']}"`. -/
def contextLine (s : EnrichedScene) : String :=
  "[" ++ fmt1 s.start_time ++ "s] " ++ s.combined_context

/-- The `texts` accumulation loop of `build_context`: append one line per
scene whose `combined_context` is truthy (non-empty). -/
def buildContextTexts : List EnrichedScene → List String
  | [] => []
  | s :: rest =>
    if s.combined_context ≠ "" then contextLine s :: buildContextTexts rest
    else buildContextTexts rest

/-- `build_context(scenes, max_scenes=50)` from `step3_generate_script.py`:
the loop runs over `scenes[:max_scenes]` and the collected lines are joined
with newlines. -/
def build_context (scenes : List EnrichedScene) (max_scenes : Nat) : String :=
  String.intercalate "\n" (buildContextTexts (scenes.take max_scenes))

/-! ## step1_preprocess.py — scene records, best frame, subtitles -/

/-- The configuration constant `SCENE_MIN_DURATION = 1.0`. -/
def SCENE_MIN_DURATION : ℚ := 1

/-- One element of the `scenes_meta` array written to
`output_step1/scenes.json`. -/
structure SceneRecord where
  scene_id : Nat
  start_time : ℚ
  end_time : ℚ
  duration : ℚ
  audio_path : String
  frame_path : String
  subtitle_text : String
deriving DecidableEq

/-- Python `f"{idx:04d}"`: decimal digits zero-padded to width 4. -/
def pad4 (n : Nat) : String :=
  String.mk (List.replicate (4 - (natDigitsL n).length) '0' ++ natDigitsL n)

/-- The audio clip path `os.path.join(audio_dir, f"scene_{scene_id}.wav")`. -/
def audioPath (idx : Nat) : String := "output_step1/audio/scene_" ++ pad4 idx ++ ".wav"

/-- The frame path `os.path.join(frames_dir, f"scene_{scene_id}.jpg")`. -/
def framePath (idx : Nat) : String := "output_step1/frames/scene_" ++ pad4 idx ++ ".jpg"

/-- The record appended to `scenes_meta` for detected scene `idx` with frame
bounds `[sf, ef)`, as built in `main` of `step1_preprocess.py`: times are
`frame/fps` rounded to 3 decimals, `frame_path` is empty when no frame was
decodable, `subtitle_text` abstracts the OCR result for the scene. -/
def mkSceneRecord (fps : ℚ) (idx sf ef : Nat) (frameOk : Bool) (sub : String) : SceneRecord :=
  let st : ℚ := (sf : ℚ) / fps
  let et : ℚ := (ef : ℚ) / fps
  { scene_id := idx
    start_time := round3 st
    end_time := round3 et
    duration := round3 (et - st)
    audio_path := audioPath idx
    frame_path := if frameOk then framePath idx else ""
    subtitle_text := sub }

/-- Does detected scene `(sf, ef)` survive the duration filter
`if duration < SCENE_MIN_DURATION: continue`? -/
def sceneKept (fps minDur : ℚ) (sf ef : Nat) : Prop :=
  ¬((ef : ℚ) / fps - (sf : ℚ) / fps < minDur)

instance (fps minDur : ℚ) (sf ef : Nat) : Decidable (sceneKept fps minDur sf ef) := by
  unfold sceneKept; infer_instance

/-- The `scenes_meta` list built by the stage-1 loop over
`enumerate(scene_list)` when no fatal error occurs: scenes failing the
duration filter are skipped by `continue`, surviving scenes contribute one
record carrying their original index `idx` as `scene_id`. -/
def stage1Records (sceneList : List (Nat × Nat)) (fps minDur : ℚ)
    (frameOk : Nat → Bool) (sub : Nat → String) : List SceneRecord :=
  sceneList.enum.filterMap fun p =>
    if (p.2.2 : ℚ) / fps - (p.2.1 : ℚ) / fps < minDur then none
    else some (mkSceneRecord fps p.1 p.2.1 p.2.2 (frameOk p.1) (sub p.1))

/-- The stage-1 main loop observed at the checkpoint `scenes.json`:
records accumulate in the in-memory list `scenes_meta` (`acc`); `audioOk idx`
is false when ffmpeg fails on scene `idx`, in which case
`extract_audio_segment` re-raises, `main` aborts, and the single `json.dump`
after the loop never runs — the checkpoint stays unwritten (`none`). -/
def runStage1Aux (fps minDur : ℚ) (audioOk frameOk : Nat → Bool) (sub : Nat → String) :
    List (Nat × (Nat × Nat)) → List SceneRecord → Option (List SceneRecord)
  | [], acc => some acc
  | p :: rest, acc =>
    if (p.2.2 : ℚ) / fps - (p.2.1 : ℚ) / fps < minDur then
      runStage1Aux fps minDur audioOk frameOk sub rest acc
    else if audioOk p.1 then
      runStage1Aux fps minDur audioOk frameOk sub rest
        (acc ++ [mkSceneRecord fps p.1 p.2.1 p.2.2 (frameOk p.1) (sub p.1)])
    else none

/-- The checkpoint state after running stage 1 of `step1_preprocess.py` on
`sceneList`: `some records` when the loop completed and `json.dump` wrote the
artifact, `none` when a fatal per-scene error surfaced first. -/
def runStage1 (sceneList : List (Nat × Nat)) (fps minDur : ℚ)
    (audioOk frameOk : Nat → Bool) (sub : Nat → String) : Option (List SceneRecord) :=
  runStage1Aux fps minDur audioOk frameOk sub sceneList.enum []

/-- The sampling stride `max(1, total_frames // 30)` of `get_best_frame`. -/
def sampleStride (startF endF : Nat) : Nat := max 1 ((endF - startF) / 30)

/-- Python `range(s, e, step)` for a positive stride: the sampled frame
indices. -/
def pyRange (s e step : Nat) : List Nat :=
  (List.range ((e - s + step - 1) / step)).map (fun k => s + k * step)

/-- The body of the `for i in range(start_frame, end_frame, step)` loop of
`get_best_frame`: `decode i` models `cap.read()` at position `i` (`none` when
`ret` is false, in which case the loop `break`s), `sharp` models the
grayscale-Laplacian-variance sharpness score, `bestScore`/`best` are
`best_score`/`best_frame`, and the running maximum is updated on strict
improvement only (`if score > best_score`). -/
def bestFrameLoop {F : Type} (decode : Nat → Option F) (sharp : F → ℚ) :
    List Nat → ℚ → Option F → Option F
  | [], _, best => best
  | i :: rest, bestScore, best =>
    match decode i with
    | none => best
    | some fr =>
      if bestScore < sharp fr then bestFrameLoop decode sharp rest (sharp fr) (some fr)
      else bestFrameLoop decode sharp rest bestScore best

/-- `get_best_frame(video_path, start_frame, end_frame)` from
`step1_preprocess.py`, with the video abstracted as the decode function and
the sharpness scorer: `best_score` starts at `-1`, `best_frame` at `None`. -/
def get_best_frame {F : Type} (decode : Nat → Option F) (sharp : F → ℚ)
    (startF endF : Nat) : Option F :=
  bestFrameLoop decode sharp (pyRange startF endF (sampleStride startF endF)) (-1) none

/-- Modelled from the spec: "FrameQualitySelector returns the sampled frame
with strictly maximal sharpness score; on a tie between two sampled frames,
the earlier one wins" — the first frame whose score is maximal among all the
decoded sampled frames. -/
def specBestFrame {F : Type} (sharp : F → ℚ) (frames : List F) : Option F :=
  frames.find? (fun f => frames.all (fun g => sharp g ≤ sharp f))

/-- One element of the list returned by `ocr_engine.predict(roi)`.
`item text conf` models a well-formed element
`[box, (text, conf)]` (a list of length ≥ 2 whose second entry is a
2-tuple of a text and a numeric confidence); `malformed` collapses every
shape that fails one of the `isinstance`/length checks of
`extract_subtitle_from_frame`. -/
inductive OcrItem where
  | item (text : String) (conf : ℚ)
  | malformed
deriving DecidableEq

/-- The `texts` accumulation loop of `extract_subtitle_from_frame`: keep
`str(text)` for every well-formed element whose confidence is `> 0.8`. -/
def collectTexts : List OcrItem → List String
  | [] => []
  | OcrItem.item t c :: rest =>
    if (0.8 : ℚ) < c then t :: collectTexts rest else collectTexts rest
  | OcrItem.malformed :: rest => collectTexts rest

/-- Modelled from the spec's description of the output contract: the text a
fragment contributes, `none` when malformed or at confidence `≤ 0.8`. -/
def qualifyingText : OcrItem → Option String
  | OcrItem.item t c => if (0.8 : ℚ) < c then some t else none
  | OcrItem.malformed => none

/-- `extract_subtitle_from_frame(frame, ocr_engine)` with the engine call
abstracted by its outcome: `Except.error e` models `ocr_engine.predict`
raising (the function has no `try`/`except`, so the exception propagates),
`Except.ok none` models a falsy/`None` result, `Except.ok (some items)` a
returned list.  On success the qualifying texts are joined with spaces and
the join is stripped (`" ".join(texts).strip()`). -/
def extract_subtitle_from_frame (predictResult : Except Unit (Option (List OcrItem))) :
    Except Unit String :=
  match predictResult with
  | Except.error e => Except.error e
  | Except.ok none => Except.ok ""
  | Except.ok (some items) =>
    if items.isEmpty then Except.ok ""
    else Except.ok (pyStrip (String.intercalate " " (collectTexts items)))

/-- The configuration constant `EXTRACT_SUBTITLES = False`. -/
def EXTRACT_SUBTITLES : Bool := false

/-- The `EXTRACT_SUBTITLES_GLOBAL` flag computed in `main`: subtitle
extraction is active only when the config flag is set and `get_ocr_engine()`
returned an engine (`ocrInit.isSome`; `get_ocr_engine` catches its own
initialization failure and returns `None`). -/
def extractSubtitlesGlobal (extractConfig : Bool)
    (ocrInit : Option (Except Unit (Option (List OcrItem)))) : Bool :=
  if extractConfig then ocrInit.isSome else false

/-- The `subtitle_text` computation for one scene in `main` of
`step1_preprocess.py`: `extract_subtitle_from_frame` runs only when the
global flag is set and a best frame exists, and there is no `try`/`except`
around the call, so an engine exception propagates out of the stage.
`ocrInit` is the engine returned by `get_ocr_engine()` abstracted as the
outcome of its `predict` call on this frame. -/
def sceneSubtitle (extractConfig : Bool)
    (ocrInit : Option (Except Unit (Option (List OcrItem)))) (haveFrame : Bool) :
    Except Unit String :=
  if extractSubtitlesGlobal extractConfig ocrInit && haveFrame then
    match ocrInit with
    | some pred => extract_subtitle_from_frame pred
    | none => Except.ok ""
  else Except.ok ""

/-! ## The artifact store: `json.dump(..., ensure_ascii=False, indent=2)` and
`json.load` specialised to the stage-1 artifact schema

`write_artifact` reproduces the exact document text Python writes for
`scenes_meta` (UTF-8, non-ASCII characters verbatim, two-space indent, float
times printed with their minimal decimal digits).  `read_artifact` models
`json.load` followed by field access, specialised to the schema and key
order that `write_artifact` emits (exponent-form numbers and reordered keys,
which the writer never produces, are not modelled). -/

/-- JSON insignificant whitespace, as skipped by `json.load`. -/
def isJsonWs (c : Char) : Bool := c = ' ' || c = '\t' || c = '\n' || c = '\r'

/-- Skip insignificant whitespace. -/
def skipWs (cs : List Char) : List Char := cs.dropWhile isJsonWs

/-- Lower-case hexadecimal digit character for `n < 16`. -/
def hexDigitChar (n : Nat) : Char :=
  if n < 10 then Char.ofNat (48 + n) else Char.ofNat (87 + n)

/-- Value of a hexadecimal digit character. -/
def hexVal (c : Char) : Option Nat :=
  if 48 ≤ c.toNat && c.toNat ≤ 57 then some (c.toNat - 48)
  else if 97 ≤ c.toNat && c.toNat ≤ 102 then some (c.toNat - 87)
  else if 65 ≤ c.toNat && c.toNat ≤ 70 then some (c.toNat - 55)
  else none

/-- String-character encoding of `json.dump` with `ensure_ascii=False`:
quote, backslash and the named control escapes are escaped, other control
characters become `\u00XX`, and everything else — in particular all
non-ASCII text — is written verbatim. -/
def encodeChar (c : Char) : List Char :=
  if c = '"' then ['\\', '"']
  else if c = '\\' then ['\\', '\\']
  else if c = '\n' then ['\\', 'n']
  else if c = '\r' then ['\\', 'r']
  else if c = '\t' then ['\\', 't']
  else if c = '\x08' then ['\\', 'b']
  else if c = '\x0c' then ['\\', 'f']
  else if c.toNat < 32 then
    ['\\', 'u', '0', '0', hexDigitChar (c.toNat / 16), hexDigitChar (c.toNat % 16)]
  else [c]

/-- Encode the characters of a JSON string body. -/
def encodeStr (cs : List Char) : List Char := (cs.map encodeChar).flatten

/-- Render a JSON string literal, quotes included. -/
def renderJString (s : String) : List Char := '"' :: (encodeStr s.data ++ ['"'])

/-- Decode a single-character escape (`json.load` string unescaping). -/
def escDecode (e : Char) : Option Char :=
  if e = '"' then some '"'
  else if e = '\\' then some '\\'
  else if e = '/' then some '/'
  else if e = 'b' then some '\x08'
  else if e = 'f' then some '\x0c'
  else if e = 'n' then some '\n'
  else if e = 'r' then some '\r'
  else if e = 't' then some '\t'
  else none

/-- Parse the body of a JSON string up to the closing quote, decoding
escapes; raw control characters are rejected as in `json.load`'s default
strict mode.  Returns the decoded characters and the input after the
closing quote. -/
def parseStringBody : List Char → Option (List Char × List Char)
  | [] => none
  | c :: rest =>
    if c = '"' then some ([], rest)
    else if c = '\\' then
      match rest with
      | [] => none
      | e :: rest2 =>
        if e = 'u' then
          match rest2 with
          | h1 :: h2 :: h3 :: h4 :: rest3 =>
            match hexVal h1, hexVal h2, hexVal h3, hexVal h4 with
            | some a, some b, some c2, some d =>
              (parseStringBody rest3).map
                (fun p => (Char.ofNat (((a * 16 + b) * 16 + c2) * 16 + d) :: p.1, p.2))
            | _, _, _, _ => none
          | _ => none
        else
          match escDecode e with
          | some d => (parseStringBody rest2).map (fun p => (d :: p.1, p.2))
          | none => none
    else if c.toNat < 32 then none
    else (parseStringBody rest).map (fun p => (c :: p.1, p.2))

/-- Parse a JSON string literal (leading whitespace allowed). -/
def parseJString (cs : List Char) : Option (String × List Char) :=
  match skipWs cs with
  | [] => none
  | c :: rest =>
    if c = '"' then (parseStringBody rest).map (fun p => (String.mk p.1, p.2))
    else none

/-- Parse a nonnegative JSON integer (leading whitespace allowed). -/
def parseNat (cs : List Char) : Option (Nat × List Char) :=
  let cs1 := skipWs cs
  let ds := cs1.takeWhile isDigitChar
  if ds = [] then none else some (digitsValue ds, cs1.dropWhile isDigitChar)

/-- Parse a nonnegative JSON decimal number with a fractional part, as a
rational (leading whitespace allowed). -/
def parseQ (cs : List Char) : Option (ℚ × List Char) :=
  match parseNat cs with
  | none => none
  | some (i, rest) =>
    match rest with
    | [] => none
    | r :: rest2 =>
      if r = '.' then
        let ds := rest2.takeWhile isDigitChar
        if ds = [] then none
        else some ((i : ℚ) + (digitsValue ds : ℚ) / (10 : ℚ) ^ ds.length,
                   rest2.dropWhile isDigitChar)
      else none

/-- Expect one literal character after optional whitespace. -/
def expectChar (c : Char) (cs : List Char) : Option (List Char) :=
  match skipWs cs with
  | c2 :: rest => if c2 = c then some rest else none
  | [] => none

/-- Expect a literal character sequence. -/
def expectLit : List Char → List Char → Option (List Char)
  | [], cs => some cs
  | _ :: _, [] => none
  | l :: ls, c :: cs => if c = l then expectLit ls cs else none

/-- Expect a quoted object key followed by a colon (whitespace allowed
around both), as `json.load` reads one member of an object. -/
def expectKey (key : List Char) (cs : List Char) : Option (List Char) :=
  match expectLit ('"' :: (key ++ ['"'])) (skipWs cs) with
  | none => none
  | some rest => expectChar ':' rest

/-- The minimal decimal digits of the fractional part `f < 1000` of a time
value of `scenes.json`, matching Python `repr` of the stored float: trailing
zeros suppressed, at least one digit. -/
def fracDigits3 (f : Nat) : List Char :=
  if f % 1000 = 0 then ['0']
  else if f % 100 = 0 then [decimalChar (f / 100)]
  else if f % 10 = 0 then [decimalChar (f / 100), decimalChar (f / 10 % 10)]
  else [decimalChar (f / 100), decimalChar (f / 10 % 10), decimalChar (f % 10)]

/-- Render a stage-1 time value (a nonnegative rational with at most three
decimal places, as produced by `round(x, 3)`) the way `json.dump` writes
the float. -/
def renderTime (q : ℚ) : List Char :=
  let k := (⌊q * 1000⌋).toNat
  natDigitsL (k / 1000) ++ '.' :: fracDigits3 (k % 1000)

/-- The text `json.dump(..., indent=2)` places before the value of a key of
a record object: newline, four-space indent, the quoted key, colon, space. -/
def keyPrefix (key : List Char) : List Char :=
  '\n' :: ' ' :: ' ' :: ' ' :: ' ' :: '"' :: (key ++ '"' :: ':' :: ' ' :: [])

/-- The document text of one record object of `scenes.json`, keys in the
insertion order of the `scenes_meta.append` call. -/
def renderRecord (r : SceneRecord) : List Char :=
  '\x7b' :: (keyPrefix ("scene_id").data ++ natDigitsL r.scene_id
    ++ ',' :: (keyPrefix ("start_time").data ++ renderTime r.start_time
    ++ ',' :: (keyPrefix ("end_time").data ++ renderTime r.end_time
    ++ ',' :: (keyPrefix ("duration").data ++ renderTime r.duration
    ++ ',' :: (keyPrefix ("audio_path").data ++ renderJString r.audio_path
    ++ ',' :: (keyPrefix ("frame_path").data ++ renderJString r.frame_path
    ++ ',' :: (keyPrefix ("subtitle_text").data ++ renderJString r.subtitle_text
    ++ '\n' :: ' ' :: ' ' :: '\x7d' :: [])))))))

/-- Join rendered records with the `",\n  "` separator of
`json.dump(..., indent=2)`. -/
def joinRecords : List (List Char) → List Char
  | [] => []
  | [x] => x
  | x :: y :: t => x ++ ',' :: '\n' :: ' ' :: ' ' :: joinRecords (y :: t)

/-- The full document text of `scenes.json`:
`json.dump(scenes_meta, f, ensure_ascii=False, indent=2)`. -/
def renderArtifact (rs : List SceneRecord) : List Char :=
  if rs = [] then ['[', ']']
  else '[' :: '\n' :: ' ' :: ' ' :: (joinRecords (rs.map renderRecord) ++ '\n' :: ']' :: [])

/-- Write the stage-1 checkpoint document. -/
def write_artifact (rs : List SceneRecord) : String := String.mk (renderArtifact rs)

/-- Parse one object member `"key": value` where the value is a decimal
number, preceded by a comma. -/
def parseQMember (key : List Char) (cs : List Char) : Option (ℚ × List Char) :=
  match expectChar ',' cs with
  | none => none
  | some cs1 =>
    match expectKey key cs1 with
    | none => none
    | some cs2 => parseQ cs2

/-- Parse one object member `"key": value` where the value is a string,
preceded by a comma. -/
def parseStrMember (key : List Char) (cs : List Char) : Option (String × List Char) :=
  match expectChar ',' cs with
  | none => none
  | some cs1 =>
    match expectKey key cs1 with
    | none => none
    | some cs2 => parseJString cs2

/-- Parse the three string members of a record. -/
def parseStrMembers (cs : List Char) : Option ((String × String × String) × List Char) :=
  match parseStrMember ("audio_path").data cs with
  | none => none
  | some (ap, cs1) =>
    match parseStrMember ("frame_path").data cs1 with
    | none => none
    | some (fp, cs2) =>
      match parseStrMember ("subtitle_text").data cs2 with
      | none => none
      | some (sub, cs3) => some ((ap, fp, sub), cs3)

/-- Parse the three time members of a record. -/
def parseTimeMembers (cs : List Char) : Option ((ℚ × ℚ × ℚ) × List Char) :=
  match parseQMember ("start_time").data cs with
  | none => none
  | some (st, cs1) =>
    match parseQMember ("end_time").data cs1 with
    | none => none
    | some (et, cs2) =>
      match parseQMember ("duration").data cs2 with
      | none => none
      | some (du, cs3) => some ((st, et, du), cs3)

/-- Parse one record object of the checkpoint document: the braces, the
seven members in the key order `write_artifact` emits, with whitespace
allowed around every token. -/
def parseRecord (cs : List Char) : Option (SceneRecord × List Char) :=
  match expectChar '\x7b' cs with
  | none => none
  | some cs1 =>
    match expectKey ("scene_id").data cs1 with
    | none => none
    | some cs2 =>
      match parseNat cs2 with
      | none => none
      | some (sid, cs3) =>
        match parseTimeMembers cs3 with
        | none => none
        | some ((st, et, du), cs4) =>
          match parseStrMembers cs4 with
          | none => none
          | some ((ap, fp, sub), cs5) =>
            match expectChar '\x7d' cs5 with
            | none => none
            | some cs6 =>
              some ({ scene_id := sid, start_time := st, end_time := et, duration := du,
                      audio_path := ap, frame_path := fp, subtitle_text := sub }, cs6)

/-- Parse a comma-separated sequence of record objects up to the closing
bracket of the array.  `fuel` bounds the recursion; `read_artifact` passes
more fuel than the document can hold records. -/
def parseRecordsAux : Nat → List Char → Option (List SceneRecord × List Char)
  | 0, _ => none
  | fuel + 1, cs =>
    match parseRecord cs with
    | none => none
    | some (r, rest) =>
      match skipWs rest with
      | [] => none
      | c :: rest2 =>
        if c = ',' then
          match parseRecordsAux fuel rest2 with
          | none => none
          | some (rs, rest3) => some (r :: rs, rest3)
        else if c = ']' then some ([r], rest2)
        else none

/-- Read the stage-1 checkpoint back (`json.load` of the array of records,
followed by field access in the written key order). -/
def read_artifact (s : String) : Option (List SceneRecord) :=
  match expectChar '[' s.data with
  | none => none
  | some cs1 =>
    if (skipWs cs1).head? = some ']' then
      if skipWs (skipWs cs1).tail = [] then some [] else none
    else
      match parseRecordsAux (cs1.length + 1) cs1 with
      | none => none
      | some (rs, rest) => if skipWs rest = [] then some rs else none

/-- A well-formed stored time value: a nonnegative whole number of
milliseconds.  Every time field stage 1 stores has this shape
(`round(x, 3)` of a nonnegative time). -/
def WfTime (q : ℚ) : Prop := ∃ k : Nat, q = (k : ℚ) / 1000

/-- A record whose time fields are well-formed stored times. -/
def WfRecord (r : SceneRecord) : Prop :=
  WfTime r.start_time ∧ WfTime r.end_time ∧ WfTime r.duration

/-! ## Theorems -/

/-! ### C1 — the context window builder -/

lemma buildContextTexts_eq_filter (l : List EnrichedScene) :
    buildContextTexts l =
      (l.filter (fun s => s.combined_context ≠ "")).map contextLine := by
  induction l with
  | nil => rfl
  | cons s rest ih =>
    by_cases h : s.combined_context = "" <;>
      simp [buildContextTexts, List.filter_cons, h, ih]

/-- C1, counterexample.  The claim says a scene with empty `combined_context`
does not consume a slot and that the first `max_scenes` *qualifying* scenes
are included.  With two scenes — the first with empty context, the second
with context `"a"` — and `max_scenes = 1`, there is exactly one qualifying
scene, so the claim predicts one emitted line; the code truncates to
`scenes[:1]` *before* filtering and emits nothing. -/
theorem C1_counterexample :
    build_context
      [⟨0, 0, 1, 1, "", "", ""⟩, ⟨1, 1, 2, 1, "", "", "a"⟩] 1 = "" ∧
    (([⟨0, 0, 1, 1, "", "", ""⟩, ⟨1, 1, 2, 1, "", "", "a"⟩] :
        List EnrichedScene).filter (fun s => s.combined_context ≠ "")).length = 1 := by
  constructor
  · rfl
  · rfl

/-- C1, amended.  The builder truncates to the *first `max_scenes` scenes of
the input* and only then skips scenes with empty `combined_context`: the
emitted lines are exactly one line per non-empty-context scene of that
prefix, in order (so an empty-context scene inside the window does consume a
slot), and never more than `max_scenes` lines are emitted. -/
theorem C1_context_builder (scenes : List EnrichedScene) (max_scenes : Nat) :
    buildContextTexts (scenes.take max_scenes) =
      ((scenes.take max_scenes).filter
        (fun s => s.combined_context ≠ "")).map contextLine ∧
    (buildContextTexts (scenes.take max_scenes)).length ≤ max_scenes ∧
    build_context scenes max_scenes =
      String.intercalate "\n"
        (((scenes.take max_scenes).filter
          (fun s => s.combined_context ≠ "")).map contextLine) := by
  refine ⟨buildContextTexts_eq_filter _, ?_, ?_⟩
  · calc (buildContextTexts (scenes.take max_scenes)).length
        = ((scenes.take max_scenes).filter
            (fun s => s.combined_context ≠ "")).length := by
          rw [buildContextTexts_eq_filter, List.length_map]
      _ ≤ (scenes.take max_scenes).length := List.length_filter_le _ _
      _ ≤ max_scenes := List.length_take_le _ _
  · rw [build_context, buildContextTexts_eq_filter]

/-! ### C2 — stage 1 persists nothing before its final write -/

lemma runStage1Aux_success (fps minDur : ℚ) (audioOk frameOk : Nat → Bool)
    (sub : Nat → String) (l : List (Nat × (Nat × Nat))) :
    ∀ acc : List SceneRecord,
      (∀ p ∈ l, ¬((p.2.2 : ℚ) / fps - (p.2.1 : ℚ) / fps < minDur) →
        audioOk p.1 = true) →
      runStage1Aux fps minDur audioOk frameOk sub l acc =
        some (acc ++ l.filterMap (fun p =>
          if (p.2.2 : ℚ) / fps - (p.2.1 : ℚ) / fps < minDur then none
          else some (mkSceneRecord fps p.1 p.2.1 p.2.2 (frameOk p.1) (sub p.1)))) := by
  induction l with
  | nil => intro acc _; simp [runStage1Aux]
  | cons p rest ih =>
    intro acc h
    by_cases hd : (p.2.2 : ℚ) / fps - (p.2.1 : ℚ) / fps < minDur
    · simpa [runStage1Aux, hd] using ih acc (fun q hq => h q (List.mem_cons_of_mem _ hq))
    · have hok : audioOk p.1 = true := h p (List.mem_cons_self _ _) hd
      simp only [runStage1Aux, if_neg hd, hok, if_true, List.filterMap_cons]
      rw [ih _ (fun q hq => h q (List.mem_cons_of_mem _ hq))]
      simp [hd]

lemma runStage1Aux_fail (fps minDur : ℚ) (audioOk frameOk : Nat → Bool)
    (sub : Nat → String) (l : List (Nat × (Nat × Nat))) :
    ∀ acc : List SceneRecord,
      (∃ p ∈ l, ¬((p.2.2 : ℚ) / fps - (p.2.1 : ℚ) / fps < minDur) ∧
        audioOk p.1 = false) →
      runStage1Aux fps minDur audioOk frameOk sub l acc = none := by
  induction l with
  | nil => intro acc h; simp at h
  | cons p rest ih =>
    intro acc h
    by_cases hd : (p.2.2 : ℚ) / fps - (p.2.1 : ℚ) / fps < minDur
    · rcases h with ⟨q, hq, hkept, hfail⟩
      rcases List.mem_cons.mp hq with rfl | hq2
      · exact absurd hd hkept
      · simp only [runStage1Aux, if_pos hd]
        exact ih acc ⟨q, hq2, hkept, hfail⟩
    · by_cases hok : audioOk p.1 = true
      · rcases h with ⟨q, hq, hkept, hfail⟩
        rcases List.mem_cons.mp hq with rfl | hq2
        · rw [hok] at hfail; exact absurd hfail (by simp)
        · simp only [runStage1Aux, if_neg hd, hok, if_true]
          exact ih _ ⟨q, hq2, hkept, hfail⟩
      · simp only [Bool.not_eq_true] at hok
        simp [runStage1Aux, if_neg hd, hok]

/-- C2, counterexample.  Two detected scenes of 2 s each at 10 fps; ffmpeg
fails on the second scene (`audioOk 1 = false`), i.e. a fatal error surfaces
while stage 1 is processing scene `k = 1`.  Scene 0 was completed (with all
scenes succeeding, the artifact holds records 0 and 1), yet the checkpoint
after the failing run is `none` — never written — so the completed record of
scene 0 was *not* persisted, contradicting the claim; stage 1 buffers the
whole stage in `scenes_meta` and writes once at the end. -/
theorem C2_counterexample :
    runStage1 [(0, 20), (20, 40)] 10 1 (fun i => decide (i = 0))
        (fun _ => true) (fun _ => "") = none ∧
    (stage1Records [(0, 20), (20, 40)] 10 1 (fun _ => true)
        (fun _ => "")).map SceneRecord.scene_id = [0, 1] := by
  constructor
  · show runStage1Aux 10 1 _ _ _ [(0, (0, 20)), (1, (20, 40))] [] = none
    norm_num [runStage1Aux]
  · show (List.filterMap _ [(0, (0, 20)), (1, (20, 40))]).map SceneRecord.scene_id = [0, 1]
    norm_num [List.filterMap, mkSceneRecord]

/-- C2, amended.  Stage 1 buffers all records in memory and performs a single
checkpoint write after the loop: if every scene that survives the duration
filter extracts successfully, the checkpoint holds exactly the stage's
records; if any surviving scene hits a fatal audio-extraction error, the
checkpoint is never written at all, so records completed before the failing
scene are lost. -/
theorem C2_checkpoint_write_once (sceneList : List (Nat × Nat)) (fps minDur : ℚ)
    (audioOk frameOk : Nat → Bool) (sub : Nat → String) :
    ((∀ p ∈ sceneList.enum,
        ¬((p.2.2 : ℚ) / fps - (p.2.1 : ℚ) / fps < minDur) → audioOk p.1 = true) →
      runStage1 sceneList fps minDur audioOk frameOk sub =
        some (stage1Records sceneList fps minDur frameOk sub)) ∧
    ((∃ p ∈ sceneList.enum,
        ¬((p.2.2 : ℚ) / fps - (p.2.1 : ℚ) / fps < minDur) ∧ audioOk p.1 = false) →
      runStage1 sceneList fps minDur audioOk frameOk sub = none) := by
  constructor
  · intro h
    rw [runStage1, runStage1Aux_success fps minDur audioOk frameOk sub _ [] h]
    rfl
  · intro h
    exact runStage1Aux_fail fps minDur audioOk frameOk sub _ [] h

/-- C2, witness for the amended theorem: both directions at concrete inputs
(one 2 s scene at 10 fps; extraction succeeding resp. failing). -/
theorem C2_checkpoint_write_once_witness :
    runStage1 [(0, 20)] 10 1 (fun _ => true) (fun _ => true) (fun _ => "") =
      some (stage1Records [(0, 20)] 10 1 (fun _ => true) (fun _ => "")) ∧
    runStage1 [(0, 20)] 10 1 (fun _ => false) (fun _ => true) (fun _ => "") = none :=
  ⟨(C2_checkpoint_write_once [(0, 20)] 10 1 (fun _ => true) (fun _ => true)
      (fun _ => "")).1 (fun _ _ _ => rfl),
   (C2_checkpoint_write_once [(0, 20)] 10 1 (fun _ => false) (fun _ => true)
      (fun _ => "")).2 ⟨(0, (0, 20)), by simp, by norm_num, rfl⟩⟩

/-! ### C8 — stored SceneRecord field invariants -/

lemma rnd_bound (x : ℚ) : |(rnd x : ℚ) - x| ≤ 1 / 2 := by
  have h0 : (⌊x⌋ : ℚ) ≤ x := Int.floor_le x
  have h1 : x < ⌊x⌋ + 1 := Int.lt_floor_add_one x
  unfold rnd
  split_ifs with hc1 hc2 hc3 <;> rw [abs_le] <;> constructor <;> push_cast <;> linarith

lemma round3_bound (x : ℚ) : |round3 x - x| ≤ 1 / 2000 := by
  have h := rnd_bound (x * 1000)
  rw [abs_le] at h ⊢
  rw [round3]
  constructor <;> [linarith [h.1]; linarith [h.2]]

lemma round3_min (d : ℚ) (hd : 1 ≤ d) : 1 ≤ round3 d := by
  have h := rnd_bound (d * 1000)
  rw [abs_le] at h
  have hint : (1000 : ℤ) ≤ rnd (d * 1000) := by
    by_contra hlt
    push_neg at hlt
    have h999 : rnd (d * 1000) ≤ 999 := by omega
    have : ((rnd (d * 1000) : ℤ) : ℚ) ≤ 999 := by exact_mod_cast h999
    linarith
  have : (1000 : ℚ) ≤ ((rnd (d * 1000) : ℤ) : ℚ) := by exact_mod_cast hint
  rw [round3]
  linarith

lemma round3_consistency (st et : ℚ) :
    |round3 (et - st) - (round3 et - round3 st)| ≤ 1 / 1000 := by
  have ha := rnd_bound (st * 1000)
  have hb := rnd_bound (et * 1000)
  have hc := rnd_bound ((et - st) * 1000)
  rw [abs_le] at ha hb hc
  have hq : |((rnd ((et - st) * 1000) - rnd (et * 1000) + rnd (st * 1000) : ℤ) : ℚ)| ≤ 3 / 2 := by
    rw [abs_le]
    push_cast
    constructor <;> linarith
  push_cast at hq
  have hz : |(rnd ((et - st) * 1000) - rnd (et * 1000) + rnd (st * 1000) : ℤ)| ≤ 1 := by
    by_contra hgt
    push_neg at hgt
    have h2 : (2 : ℤ) ≤ |rnd ((et - st) * 1000) - rnd (et * 1000) + rnd (st * 1000)| := hgt
    have hcast : ((2 : ℤ) : ℚ) ≤ |((rnd ((et - st) * 1000) - rnd (et * 1000) + rnd (st * 1000) : ℤ) : ℚ)| := by
      rw [← Int.cast_abs]
      exact_mod_cast h2
    push_cast at hcast
    linarith
  have hzq : |((rnd ((et - st) * 1000) - rnd (et * 1000) + rnd (st * 1000) : ℤ) : ℚ)| ≤ 1 := by
    rw [← Int.cast_abs]
    exact_mod_cast hz
  rw [abs_le] at hzq ⊢
  rw [round3, round3, round3]
  push_cast at hzq ⊢
  constructor <;> linarith

/-- C8, counterexample.  At 30 fps with detected frame bounds `(10, 80)` the
raw times are `1/3 s` and `8/3 s`; rounding each field independently to three
decimals stores `start_time = 0.333`, `end_time = 2.667`, `duration = 2.333`,
but `end_time - start_time = 2.334`: the stored duration does not equal the
difference of the stored endpoints. -/
theorem C8_counterexample :
    (stage1Records [(10, 80)] 30 SCENE_MIN_DURATION (fun _ => true)
        (fun _ => "")).map (fun r => (r.duration, r.end_time - r.start_time)) =
      [(2333 / 1000, 2334 / 1000)] ∧
    (2333 / 1000 : ℚ) ≠ 2334 / 1000 := by
  constructor
  · show (List.filterMap _ [(0, (10, 80))]).map _ = _
    norm_num [List.filterMap, SCENE_MIN_DURATION, mkSceneRecord, round3, rnd]
  · norm_num

/-- C8, amended.  For every record stage 1 stores: `end_time > start_time`
and `duration ≥ SCENE_MIN_DURATION` hold as claimed, but the stored
`duration` is the independently rounded raw duration, so it agrees with
`end_time - start_time` only up to the rounding grain: the discrepancy is at
most `0.001` (and `C8_counterexample` shows `0.001` is attained). -/
theorem C8_record_invariants (sceneList : List (Nat × Nat)) (fps : ℚ)
    (frameOk : Nat → Bool) (sub : Nat → String) (r : SceneRecord)
    (hr : r ∈ stage1Records sceneList fps SCENE_MIN_DURATION frameOk sub) :
    r.start_time < r.end_time ∧ SCENE_MIN_DURATION ≤ r.duration ∧
      |r.duration - (r.end_time - r.start_time)| ≤ 1 / 1000 := by
  rw [stage1Records] at hr
  obtain ⟨p, _, hif⟩ := List.mem_filterMap.mp hr
  by_cases hd : (p.2.2 : ℚ) / fps - (p.2.1 : ℚ) / fps < SCENE_MIN_DURATION
  · simp [hd] at hif
  · rw [if_neg hd, Option.some_inj] at hif
    subst hif
    rw [SCENE_MIN_DURATION] at hd ⊢
    have hd1 : 1 ≤ (p.2.2 : ℚ) / fps - (p.2.1 : ℚ) / fps := not_lt.mp hd
    have h1 := round3_bound ((p.2.1 : ℚ) / fps)
    have h2 := round3_bound ((p.2.2 : ℚ) / fps)
    rw [abs_le] at h1 h2
    refine ⟨?_, ?_, ?_⟩
    · show round3 ((p.2.1 : ℚ) / fps) < round3 ((p.2.2 : ℚ) / fps)
      linarith
    · exact round3_min _ hd1
    · exact round3_consistency ((p.2.1 : ℚ) / fps) ((p.2.2 : ℚ) / fps)

/-- C8, witness: the amended invariants at a concrete surviving scene
(frame bounds `(0, 2)` at 1 fps). -/
theorem C8_record_invariants_witness :
    (mkSceneRecord 1 0 0 2 true "") ∈
      stage1Records [(0, 2)] 1 SCENE_MIN_DURATION (fun _ => true) (fun _ => "") ∧
    ((mkSceneRecord 1 0 0 2 true "").start_time < (mkSceneRecord 1 0 0 2 true "").end_time ∧
     SCENE_MIN_DURATION ≤ (mkSceneRecord 1 0 0 2 true "").duration ∧
     |(mkSceneRecord 1 0 0 2 true "").duration -
       ((mkSceneRecord 1 0 0 2 true "").end_time -
         (mkSceneRecord 1 0 0 2 true "").start_time)| ≤ 1 / 1000) := by
  have hmem : (mkSceneRecord 1 0 0 2 true "") ∈
      stage1Records [(0, 2)] 1 SCENE_MIN_DURATION (fun _ => true) (fun _ => "") := by
    show (mkSceneRecord 1 0 0 2 true "") ∈ List.filterMap _ [(0, (0, 2))]
    norm_num [List.filterMap, SCENE_MIN_DURATION]
  exact ⟨hmem, C8_record_invariants [(0, 2)] 1 (fun _ => true) (fun _ => "") _ hmem⟩

/-! ### C3 — scene ids are original detector indices, gaps are dropped scenes -/

lemma filterMap_ite_sublist {α β : Type} (l : List α) (c : α → Prop) [DecidablePred c]
    (g : α → β) :
    (l.filterMap fun a => if c a then none else some (g a)).Sublist (l.map g) := by
  induction l with
  | nil => simp
  | cons a t ih =>
    by_cases h : c a
    · simp only [List.filterMap_cons, if_pos h, List.map_cons]
      exact ih.cons _
    · simp only [List.filterMap_cons, if_neg h, List.map_cons]
      exact ih.cons₂ _

lemma stage1_ids_eq (sceneList : List (Nat × Nat)) (fps minDur : ℚ)
    (frameOk : Nat → Bool) (sub : Nat → String) :
    (stage1Records sceneList fps minDur frameOk sub).map SceneRecord.scene_id =
      sceneList.enum.filterMap (fun p =>
        if (p.2.2 : ℚ) / fps - (p.2.1 : ℚ) / fps < minDur then none else some p.1) := by
  rw [stage1Records, List.map_filterMap]
  congr 1
  funext p
  by_cases h : (p.2.2 : ℚ) / fps - (p.2.1 : ℚ) / fps < minDur <;>
    simp [h, mkSceneRecord]

/-- C3.  Every stored record's `scene_id` is the scene's original index in
the detector's output; too-short scenes are dropped with no renumbering, so
the ids are strictly increasing and an index appears iff the detected scene
at that index survives the duration filter; in the concrete scenario of
three detected scenes of durations 0.5 s, 2 s, 3 s (10 fps, minimum 1 s),
exactly the records with ids 1 and 2 are produced. -/
theorem C3_scene_ids (sceneList : List (Nat × Nat)) (fps minDur : ℚ)
    (frameOk : Nat → Bool) (sub : Nat → String) :
    List.Pairwise (· < ·)
      ((stage1Records sceneList fps minDur frameOk sub).map SceneRecord.scene_id) ∧
    (∀ idx : Nat,
      idx ∈ (stage1Records sceneList fps minDur frameOk sub).map SceneRecord.scene_id ↔
        ∃ sf ef, sceneList.get? idx = some (sf, ef) ∧
          ¬((ef : ℚ) / fps - (sf : ℚ) / fps < minDur)) ∧
    (∀ r ∈ stage1Records sceneList fps minDur frameOk sub,
      ∃ sf ef, sceneList.get? r.scene_id = some (sf, ef) ∧
        ¬((ef : ℚ) / fps - (sf : ℚ) / fps < minDur) ∧
        r = mkSceneRecord fps r.scene_id sf ef (frameOk r.scene_id) (sub r.scene_id)) ∧
    (stage1Records [(0, 5), (5, 25), (25, 55)] 10 1 (fun _ => true)
        (fun _ => "")).map SceneRecord.scene_id = [1, 2] := by
  refine ⟨?_, ?_, ?_, ?_⟩
  · rw [stage1_ids_eq]
    refine List.Pairwise.sublist (filterMap_ite_sublist _ _ _) ?_
    rw [List.enum_map_fst]
    exact List.pairwise_lt_range _
  · intro idx
    rw [stage1_ids_eq]
    constructor
    · intro h
      obtain ⟨p, hp, hif⟩ := List.mem_filterMap.mp h
      by_cases hc : (p.2.2 : ℚ) / fps - (p.2.1 : ℚ) / fps < minDur
      · rw [if_pos hc] at hif; exact absurd hif (by simp)
      · rw [if_neg hc, Option.some_inj] at hif
        subst hif
        exact ⟨p.2.1, p.2.2, by simpa using List.mem_enum_iff_get?.mp hp, hc⟩
    · rintro ⟨sf, ef, hget, hkept⟩
      refine List.mem_filterMap.mpr ⟨(idx, (sf, ef)), ?_, ?_⟩
      · exact List.mem_enum_iff_get?.mpr hget
      · rw [if_neg hkept]
  · intro r hr
    rw [stage1Records] at hr
    obtain ⟨p, hp, hif⟩ := List.mem_filterMap.mp hr
    by_cases hc : (p.2.2 : ℚ) / fps - (p.2.1 : ℚ) / fps < minDur
    · rw [if_pos hc] at hif; exact absurd hif (by simp)
    · rw [if_neg hc, Option.some_inj] at hif
      have hid : r.scene_id = p.1 := by rw [← hif]; rfl
      refine ⟨p.2.1, p.2.2, ?_, hc, ?_⟩
      · rw [hid]; simpa using List.mem_enum_iff_get?.mp hp
      · rw [hid, ← hif]
  · show (List.filterMap _ [(0, (0, 5)), (1, (5, 25)), (2, (25, 55))]).map
      SceneRecord.scene_id = [1, 2]
    norm_num [List.filterMap, mkSceneRecord]

/-! ### C5 — subtitle extraction -/

lemma collectTexts_eq_filterMap (items : List OcrItem) :
    collectTexts items = items.filterMap qualifyingText := by
  induction items with
  | nil => rfl
  | cons it rest ih =>
    cases it with
    | item t c =>
      by_cases h : (0.8 : ℚ) < c <;> simp [collectTexts, qualifyingText, h, ih]
    | malformed => simp [collectTexts, qualifyingText, ih]

/-- C5, counterexample.  With subtitle extraction active and a decodable best
frame, an exception raised by the per-frame OCR call (`ocr_engine.predict`)
propagates out of `extract_subtitle_from_frame` — there is no `try`/`except`
around it — and aborts the stage, so "a failure … of the OCR engine never
aborts the surrounding stage 1 pipeline" is false. -/
theorem C5_counterexample :
    sceneSubtitle true (some (Except.error ())) true = Except.error () := rfl

/-- C5, amended.  Absence of the OCR engine (config off, failed
initialization, or no decodable frame) degrades to an empty subtitle without
aborting, and a successful call yields the space-joined, trimmed text of the
well-formed fragments with confidence strictly above 0.8 in detector order
(empty when none qualifies); but an exception raised by the per-frame OCR
call itself propagates and aborts the stage. -/
theorem C5_subtitle_degradation (cfg : Bool)
    (init : Option (Except Unit (Option (List OcrItem)))) (hf : Bool) :
    (cfg = false → sceneSubtitle cfg init hf = Except.ok "") ∧
    (init = none → sceneSubtitle cfg init hf = Except.ok "") ∧
    (hf = false → sceneSubtitle cfg init hf = Except.ok "") ∧
    (init = some (Except.ok none) → sceneSubtitle cfg init hf = Except.ok "") ∧
    (∀ e, init = some (Except.error e) → cfg = true → hf = true →
      sceneSubtitle cfg init hf = Except.error e) ∧
    (∀ items, init = some (Except.ok (some items)) → cfg = true → hf = true →
      sceneSubtitle cfg init hf =
        Except.ok (pyStrip (String.intercalate " "
          (items.filterMap qualifyingText)))) := by
  refine ⟨?_, ?_, ?_, ?_, ?_, ?_⟩
  · rintro rfl; rfl
  · rintro rfl; simp [sceneSubtitle, extractSubtitlesGlobal]
  · rintro rfl; simp [sceneSubtitle]
  · rintro rfl
    cases cfg <;> cases hf <;> rfl
  · rintro e rfl rfl rfl; rfl
  · rintro items rfl rfl rfl
    show extract_subtitle_from_frame (Except.ok (some items)) = _
    rw [extract_subtitle_from_frame]
    cases items with
    | nil =>
      show Except.ok "" = Except.ok (pyStrip (String.intercalate " " []))
      rfl
    | cons it rest => simp [collectTexts_eq_filterMap]

/-- C5, witness for the amended theorem: a qualifying fragment, a malformed
fragment and a low-confidence fragment on the success path, and the disabled
path. -/
theorem C5_subtitle_degradation_witness :
    sceneSubtitle true
      (some (Except.ok (some [OcrItem.item "你好" (9 / 10), OcrItem.malformed,
        OcrItem.item "x" (1 / 2)]))) true =
      Except.ok (pyStrip (String.intercalate " "
        ([OcrItem.item "你好" (9 / 10), OcrItem.malformed,
          OcrItem.item "x" (1 / 2)].filterMap qualifyingText))) ∧
    sceneSubtitle false none false = Except.ok "" :=
  ⟨(C5_subtitle_degradation true
      (some (Except.ok (some [OcrItem.item "你好" (9 / 10), OcrItem.malformed,
        OcrItem.item "x" (1 / 2)]))) true).2.2.2.2.2 _ rfl rfl rfl,
   (C5_subtitle_degradation false none false).1 rfl⟩

/-! ### C4 and C10 — the best-frame selector -/

lemma find?_congr_mem {α : Type} (l : List α) (p q : α → Bool)
    (h : ∀ a ∈ l, p a = q a) : l.find? p = l.find? q := by
  induction l with
  | nil => rfl
  | cons a t ih =>
    rw [List.find?_cons, List.find?_cons, h a (List.mem_cons_self _ _)]
    cases q a
    · exact ih (fun b hb => h b (List.mem_cons_of_mem _ hb))
    · rfl

lemma exists_max_elem {F : Type} (sharp : F → ℚ) (l : List F) (hne : l ≠ []) :
    ∃ m ∈ l, ∀ g ∈ l, sharp g ≤ sharp m := by
  induction l with
  | nil => exact absurd rfl hne
  | cons x t ih =>
    by_cases ht : t = []
    · subst ht
      refine ⟨x, List.mem_cons_self _ _, ?_⟩
      intro g hg
      rw [List.mem_singleton] at hg
      subst hg
      exact le_refl _
    · obtain ⟨m, hm, hmmax⟩ := ih ht
      by_cases hx : sharp m ≤ sharp x
      · refine ⟨x, List.mem_cons_self _ _, ?_⟩
        intro g hg
        rcases List.mem_cons.mp hg with h | hg2
        · subst h; exact le_refl _
        · exact le_trans (hmmax g hg2) hx
      · refine ⟨m, List.mem_cons_of_mem _ hm, ?_⟩
        intro g hg
        rcases List.mem_cons.mp hg with h | hg2
        · subst h; exact le_of_lt (not_le.mp hx)
        · exact hmmax g hg2

lemma exists_first_max {F : Type} (sharp : F → ℚ) (l : List F) (hne : l ≠ []) :
    ∃ f, l.find? (fun f => l.all (fun g => sharp g ≤ sharp f)) = some f := by
  rw [← Option.isSome_iff_exists, List.find?_isSome]
  obtain ⟨m, hm, hmmax⟩ := exists_max_elem sharp l hne
  refine ⟨m, hm, ?_⟩
  simp only [List.all_eq_true, decide_eq_true_eq]
  exact hmmax

lemma bestFrameLoop_spec {F : Type} (decode : Nat → Option F) (sharp : F → ℚ)
    (l : List Nat) :
    ∀ (b : ℚ) (acc : Option F),
      (∀ i ∈ l, (decode i).isSome = true) →
      bestFrameLoop decode sharp l b acc =
        ((l.filterMap decode).find? (fun f => decide (b < sharp f) &&
          (l.filterMap decode).all (fun g => sharp g ≤ sharp f))).or acc := by
  induction l with
  | nil => intro b acc _; rfl
  | cons i rest ih =>
    intro b acc hdec
    obtain ⟨fr, hfr⟩ := Option.isSome_iff_exists.mp (hdec i (List.mem_cons_self _ _))
    have hdrest : ∀ j ∈ rest, (decode j).isSome = true :=
      fun j hj => hdec j (List.mem_cons_of_mem _ hj)
    have hfm : (i :: rest).filterMap decode = fr :: rest.filterMap decode := by
      rw [List.filterMap_cons, hfr]
    have hloop : bestFrameLoop decode sharp (i :: rest) b acc =
        if b < sharp fr then bestFrameLoop decode sharp rest (sharp fr) (some fr)
        else bestFrameLoop decode sharp rest b acc := by
      simp [bestFrameLoop, hfr]
    rw [hfm, hloop]
    by_cases hb : b < sharp fr
    · rw [if_pos hb, ih (sharp fr) (some fr) hdrest]
      by_cases hall : ∀ g ∈ rest.filterMap decode, sharp g ≤ sharp fr
      · have hfind1 : (rest.filterMap decode).find?
            (fun f => decide (sharp fr < sharp f) &&
              (rest.filterMap decode).all (fun g => sharp g ≤ sharp f)) = none := by
          rw [List.find?_eq_none]
          intro f hf
          simp only [Bool.and_eq_true, decide_eq_true_eq, not_and]
          intro hlt
          exact absurd (hall f hf) (not_le.mpr hlt)
        have hpredfr : (decide (b < sharp fr) &&
            (fr :: rest.filterMap decode).all (fun g => decide (sharp g ≤ sharp fr))) = true := by
          simp only [Bool.and_eq_true, decide_eq_true_eq, List.all_cons, List.all_eq_true]
          exact ⟨hb, le_refl _, fun g hg => hall g hg⟩
        rw [hfind1,
          @List.find?_cons_of_pos _ (fun f => decide (b < sharp f) &&
            (fr :: rest.filterMap decode).all (fun g => decide (sharp g ≤ sharp f))) fr
            (rest.filterMap decode) hpredfr,
          Option.none_or, Option.or_some]
      · push_neg at hall
        obtain ⟨g0, hg0, hg0lt⟩ := hall
        have hRne : rest.filterMap decode ≠ [] := by
          intro h
          rw [h] at hg0
          exact absurd hg0 (List.not_mem_nil _)
        have hpredfr : (decide (b < sharp fr) &&
            (fr :: rest.filterMap decode).all (fun g => decide (sharp g ≤ sharp fr))) = false := by
          have hallb : ((fr :: rest.filterMap decode).all
              (fun g => decide (sharp g ≤ sharp fr))) = false := by
            rw [← Bool.not_eq_true]
            simp only [List.all_eq_true, decide_eq_true_eq]
            push_neg
            exact ⟨g0, List.mem_cons_of_mem _ hg0, hg0lt⟩
          rw [hallb, Bool.and_false]
        rw [@List.find?_cons_of_neg _ (fun f => decide (b < sharp f) &&
          (fr :: rest.filterMap decode).all (fun g => decide (sharp g ≤ sharp f))) fr
          (rest.filterMap decode) (by
            show ¬(decide (b < sharp fr) &&
              (fr :: rest.filterMap decode).all (fun g => decide (sharp g ≤ sharp fr))) = true
            rw [hpredfr]
            exact Bool.false_ne_true)]
        have hcongr : (rest.filterMap decode).find?
            (fun f => decide (b < sharp f) &&
              (fr :: rest.filterMap decode).all (fun g => sharp g ≤ sharp f)) =
            (rest.filterMap decode).find?
              (fun f => decide (sharp fr < sharp f) &&
                (rest.filterMap decode).all (fun g => sharp g ≤ sharp f)) := by
          apply find?_congr_mem
          intro f hf
          by_cases hAll : ∀ g ∈ rest.filterMap decode, sharp g ≤ sharp f
          · have h1 : sharp fr < sharp f := lt_of_lt_of_le hg0lt (hAll g0 hg0)
            have h2 : b < sharp f := lt_trans hb h1
            simp only [List.all_cons, List.all_eq_true, decide_eq_true_eq]
            simp [h1, h2, le_of_lt h1, hAll]
          · have hallb : ((rest.filterMap decode).all
                (fun g => decide (sharp g ≤ sharp f))) = false := by
              rw [← Bool.not_eq_true]
              simp only [List.all_eq_true, decide_eq_true_eq]
              exact fun h => hAll h
            simp [List.all_cons, hallb]
        rw [hcongr]
        obtain ⟨m, hm, hmmax⟩ := exists_max_elem sharp (rest.filterMap decode) hRne
        have hsomeA : ((rest.filterMap decode).find?
            (fun f => decide (sharp fr < sharp f) &&
              (rest.filterMap decode).all (fun g => sharp g ≤ sharp f))).isSome = true := by
          rw [List.find?_isSome]
          refine ⟨m, hm, ?_⟩
          simp only [Bool.and_eq_true, decide_eq_true_eq, List.all_eq_true]
          exact ⟨lt_of_lt_of_le hg0lt (hmmax g0 hg0), fun g hg => hmmax g hg⟩
        obtain ⟨y, hy⟩ := Option.isSome_iff_exists.mp hsomeA
        rw [hy, Option.or_some, Option.or_some]
    · rw [if_neg hb, ih b acc hdrest]
      have hfrb : sharp fr ≤ b := not_lt.mp hb
      have hpredfr : (decide (b < sharp fr) &&
          (fr :: rest.filterMap decode).all (fun g => decide (sharp g ≤ sharp fr))) = false := by
        have : decide (b < sharp fr) = false := decide_eq_false hb
        rw [this, Bool.false_and]
      rw [@List.find?_cons_of_neg _ (fun f => decide (b < sharp f) &&
        (fr :: rest.filterMap decode).all (fun g => decide (sharp g ≤ sharp f))) fr
        (rest.filterMap decode) (by
            show ¬(decide (b < sharp fr) &&
              (fr :: rest.filterMap decode).all (fun g => decide (sharp g ≤ sharp fr))) = true
            rw [hpredfr]
            exact Bool.false_ne_true)]
      have hcongr : (rest.filterMap decode).find?
          (fun f => decide (b < sharp f) &&
            (fr :: rest.filterMap decode).all (fun g => sharp g ≤ sharp f)) =
          (rest.filterMap decode).find?
            (fun f => decide (b < sharp f) &&
              (rest.filterMap decode).all (fun g => sharp g ≤ sharp f)) := by
        apply find?_congr_mem
        intro f hf
        by_cases hbf : b < sharp f
        · have hfrf : sharp fr ≤ sharp f := le_trans hfrb (le_of_lt hbf)
          simp only [List.all_cons, decide_eq_true_eq]
          rw [decide_eq_true hfrf, Bool.true_and]
        · rw [decide_eq_false hbf, Bool.false_and, Bool.false_and]
      rw [hcongr]

lemma bestFrameLoop_takeWhile {F : Type} (decode : Nat → Option F) (sharp : F → ℚ)
    (l : List Nat) :
    ∀ (b : ℚ) (acc : Option F),
      bestFrameLoop decode sharp l b acc =
        bestFrameLoop decode sharp (l.takeWhile fun i => (decode i).isSome) b acc := by
  induction l with
  | nil => intro b acc; rfl
  | cons i rest ih =>
    intro b acc
    cases hd : decode i with
    | none => simp [bestFrameLoop, List.takeWhile_cons, hd]
    | some fr =>
      rw [List.takeWhile_cons]
      simp only [hd, Option.isSome_some, if_true]
      have hL : bestFrameLoop decode sharp (i :: rest) b acc =
          if b < sharp fr then bestFrameLoop decode sharp rest (sharp fr) (some fr)
          else bestFrameLoop decode sharp rest b acc := by
        simp [bestFrameLoop, hd]
      have hR : bestFrameLoop decode sharp
            (i :: (rest.takeWhile fun i => (decode i).isSome)) b acc =
          if b < sharp fr then
            bestFrameLoop decode sharp (rest.takeWhile fun i => (decode i).isSome)
              (sharp fr) (some fr)
          else bestFrameLoop decode sharp (rest.takeWhile fun i => (decode i).isSome) b acc := by
        simp [bestFrameLoop, hd]
      rw [hL, hR]
      by_cases hcmp : b < sharp fr
      · rw [if_pos hcmp, if_pos hcmp, ih]
      · rw [if_neg hcmp, if_neg hcmp, ih]

lemma bestFrameLoop_isSome {F : Type} (decode : Nat → Option F) (sharp : F → ℚ)
    (l : List Nat) :
    ∀ (b : ℚ) (acc : Option F), acc.isSome = true →
      (bestFrameLoop decode sharp l b acc).isSome = true := by
  induction l with
  | nil => intro b acc h; exact h
  | cons i rest ih =>
    intro b acc h
    cases hd : decode i with
    | none => simpa [bestFrameLoop, hd] using h
    | some fr =>
      have hstep : bestFrameLoop decode sharp (i :: rest) b acc =
          if b < sharp fr then bestFrameLoop decode sharp rest (sharp fr) (some fr)
          else bestFrameLoop decode sharp rest b acc := by
        simp [bestFrameLoop, hd]
      rw [hstep]
      by_cases hcmp : b < sharp fr
      · rw [if_pos hcmp]; exact ih _ _ rfl
      · rw [if_neg hcmp]; exact ih _ _ h

/-- C4.  With the sampled indices `range(start, end, max(1, (end-start)//30))`
all decodable and the sharpness score nonnegative (a Laplacian variance
always is), `get_best_frame` returns exactly the first sampled frame of
strictly maximal score — `specBestFrame`, the spec's "strictly maximal,
earliest wins on a tie" selector; it returns `none` on an empty range, and
also when the very first sampled frame fails to decode (the loop starts by
`break`ing). -/
theorem C4_best_frame_selection (F : Type) (decode : Nat → Option F) (sharp : F → ℚ)
    (s e : Nat) :
    ((∀ i ∈ pyRange s e (sampleStride s e), (decode i).isSome = true) →
      (∀ f : F, 0 ≤ sharp f) →
      get_best_frame decode sharp s e =
        specBestFrame sharp ((pyRange s e (sampleStride s e)).filterMap decode)) ∧
    (pyRange s e (sampleStride s e) = [] → get_best_frame decode sharp s e = none) ∧
    (∀ i, (pyRange s e (sampleStride s e)).head? = some i → decode i = none →
      get_best_frame decode sharp s e = none) := by
  refine ⟨?_, ?_, ?_⟩
  · intro hdec hnn
    rw [get_best_frame, bestFrameLoop_spec decode sharp _ (-1) none hdec, Option.or_none,
      specBestFrame]
    apply find?_congr_mem
    intro f _
    have : decide ((-1 : ℚ) < sharp f) = true :=
      decide_eq_true (lt_of_lt_of_le (by norm_num) (hnn f))
    rw [this, Bool.true_and]
  · intro h
    rw [get_best_frame, h]
    rfl
  · intro i hi hd
    rw [get_best_frame]
    cases hl : pyRange s e (sampleStride s e) with
    | nil => rfl
    | cons j rest =>
      rw [hl] at hi
      simp only [List.head?_cons, Option.some_inj] at hi
      subst hi
      simp [bestFrameLoop, hd]

/-- C4, witness: two sampled indices, both decodable, the second frame
sharper; the selector picks it, matching the spec selector. -/
theorem C4_best_frame_selection_witness :
    (∀ i ∈ pyRange 0 2 (sampleStride 0 2),
      ((fun i => if i = 0 then some (0 : Fin 2) else some 1) i).isSome = true) ∧
    (∀ f : Fin 2, 0 ≤ (fun f : Fin 2 => if f = 0 then (3 : ℚ) else 5) f) ∧
    get_best_frame (fun i => if i = 0 then some (0 : Fin 2) else some 1)
        (fun f : Fin 2 => if f = 0 then (3 : ℚ) else 5) 0 2 =
      specBestFrame (fun f : Fin 2 => if f = 0 then (3 : ℚ) else 5)
        ((pyRange 0 2 (sampleStride 0 2)).filterMap
          (fun i => if i = 0 then some (0 : Fin 2) else some 1)) :=
  ⟨by decide, by decide,
   (C4_best_frame_selection (Fin 2) (fun i => if i = 0 then some (0 : Fin 2) else some 1)
      (fun f : Fin 2 => if f = 0 then (3 : ℚ) else 5) 0 2).1 (by decide) (by decide)⟩

/-- C10.  The loop `break`s at the first sampled frame that fails to decode:
the result only depends on the longest decodable prefix of the sampled
indices; and (scores being nonnegative) the selector returns `none` exactly
when the sampled range is empty or its very first frame fails to decode —
otherwise the first decoded frame already beats the initial score `-1`. -/
theorem C10_best_frame_break (F : Type) (decode : Nat → Option F) (sharp : F → ℚ)
    (s e : Nat) :
    (get_best_frame decode sharp s e =
      bestFrameLoop decode sharp
        ((pyRange s e (sampleStride s e)).takeWhile fun i => (decode i).isSome)
        (-1) none) ∧
    ((∀ f : F, 0 ≤ sharp f) →
      (get_best_frame decode sharp s e = none ↔
        pyRange s e (sampleStride s e) = [] ∨
          ∃ i, (pyRange s e (sampleStride s e)).head? = some i ∧ decode i = none)) := by
  constructor
  · exact bestFrameLoop_takeWhile decode sharp _ (-1) none
  · intro hnn
    rw [get_best_frame]
    cases hl : pyRange s e (sampleStride s e) with
    | nil => simp [bestFrameLoop]
    | cons i rest =>
      cases hd : decode i with
      | none =>
        simp only [bestFrameLoop, hd]
        simp [hd]
      | some fr =>
        have h1 : (-1 : ℚ) < sharp fr := lt_of_lt_of_le (by norm_num) (hnn fr)
        have hstep : bestFrameLoop decode sharp (i :: rest) (-1) none =
            bestFrameLoop decode sharp rest (sharp fr) (some fr) := by
          simp [bestFrameLoop, hd, h1]
        rw [hstep]
        constructor
        · intro hres
          have := bestFrameLoop_isSome decode sharp rest (sharp fr) (some fr) rfl
          rw [hres] at this
          exact absurd this (by simp)
        · rintro (h | ⟨j, hj, hdj⟩)
          · exact absurd h (List.cons_ne_nil _ _)
          · simp only [List.head?_cons, Option.some_inj] at hj
            subst hj
            rw [hd] at hdj
            exact absurd hdj (Option.some_ne_none _)

/-- C10, witness: the second sampled index fails to decode; the first frame
still wins (result is not `none`), and the none-characterisation holds. -/
theorem C10_best_frame_break_witness :
    (∀ f : Fin 2, 0 ≤ (fun f : Fin 2 => if f = 0 then (3 : ℚ) else 5) f) ∧
    (get_best_frame (fun i => if i = 0 then some (0 : Fin 2) else none)
        (fun f : Fin 2 => if f = 0 then (3 : ℚ) else 5) 0 2 = none ↔
      pyRange 0 2 (sampleStride 0 2) = [] ∨
        ∃ i, (pyRange 0 2 (sampleStride 0 2)).head? = some i ∧
          (fun i => if i = 0 then some (0 : Fin 2) else none) i = none) :=
  ⟨by decide,
   (C10_best_frame_break (Fin 2) (fun i => if i = 0 then some (0 : Fin 2) else none)
      (fun f : Fin 2 => if f = 0 then (3 : ℚ) else 5) 0 2).2 (by decide)⟩

/-! ### C6 and C7 — the utterance splitter -/

lemma reSplitGo_no_marks (cs : List Char) :
    ∀ acc, (∀ c ∈ cs, isSentMark c = false) →
      reSplitGo false cs acc = [acc.reverse ++ cs] := by
  induction cs with
  | nil => intro acc _; simp [reSplitGo]
  | cons c rest ih =>
    intro acc h
    have hc : isSentMark c = false := h c (List.mem_cons_self _ _)
    rw [reSplitGo]
    rw [if_neg (by simp), if_neg (by simp [hc]),
      ih (c :: acc) (fun d hd => h d (List.mem_cons_of_mem _ hd))]
    simp

lemma reSplitGo_mark_end (w : List Char) (m : Char) (hm : isSentMark m = true) :
    ∀ acc, (∀ c ∈ w, isSentMark c = false) →
      reSplitGo false (w ++ [m]) acc = [acc.reverse ++ w ++ [m], []] := by
  induction w with
  | nil =>
    intro acc _
    simp [reSplitGo, hm]
  | cons c w ih =>
    intro acc h
    have hc : isSentMark c = false := h c (List.mem_cons_self _ _)
    rw [List.cons_append, reSplitGo]
    rw [if_neg (by simp), if_neg (by simp [hc]),
      ih (c :: acc) (fun d hd => h d (List.mem_cons_of_mem _ hd))]
    simp

lemma reSplitGo_frag_shape (cs : List Char) :
    ∀ (skip : Bool) (acc : List Char), (∀ c ∈ acc, isSentMark c = false) →
      ∀ x ∈ reSplitGo skip cs acc, ∀ c ∈ x.dropLast, isSentMark c = false := by
  induction cs with
  | nil =>
    intro skip acc hacc x hx c hc
    simp only [reSplitGo, List.mem_singleton] at hx
    subst hx
    exact hacc c (List.mem_reverse.mp ((List.dropLast_sublist _).subset hc))
  | cons d rest ih =>
    intro skip acc hacc x hx
    rw [reSplitGo] at hx
    by_cases h1 : (skip && isPySpace d) = true
    · rw [if_pos h1] at hx
      exact ih true acc hacc x hx
    · rw [if_neg h1] at hx
      by_cases h2 : isSentMark d = true
      · rw [if_pos h2] at hx
        rcases List.mem_cons.mp hx with rfl | hx2
        · intro c hc
          rw [List.dropLast_concat] at hc
          exact hacc c (List.mem_reverse.mp hc)
        · exact ih true [] (by simp) x hx2
      · rw [if_neg h2] at hx
        refine ih false (d :: acc) ?_ x hx
        intro e he
        rcases List.mem_cons.mp he with rfl | he2
        · exact Bool.not_eq_true _ ▸ h2
        · exact hacc e he2

lemma reSplitGo_flatten_sublist (cs : List Char) :
    ∀ (skip : Bool) (acc : List Char),
      (reSplitGo skip cs acc).flatten.Sublist (acc.reverse ++ cs) := by
  induction cs with
  | nil => intro skip acc; simp [reSplitGo]
  | cons d rest ih =>
    intro skip acc
    rw [reSplitGo]
    by_cases h1 : (skip && isPySpace d) = true
    · rw [if_pos h1]
      refine (ih true acc).trans ?_
      exact List.Sublist.append (List.Sublist.refl _) (List.sublist_cons_self _ _)
    · rw [if_neg h1]
      by_cases h2 : isSentMark d = true
      · rw [if_pos h2]
        rw [List.flatten_cons]
        have h3 : (reSplitGo true rest []).flatten.Sublist rest := by
          simpa using ih true ([] : List Char)
        have h4 : ((acc.reverse ++ [d]) ++ (reSplitGo true rest []).flatten).Sublist
            ((acc.reverse ++ [d]) ++ rest) :=
          List.Sublist.append (List.Sublist.refl _) h3
        have h5 : (acc.reverse ++ [d]) ++ rest = acc.reverse ++ (d :: rest) := by simp
        rw [h5] at h4
        simpa using h4
      · rw [if_neg h2]
        refine (ih false (d :: acc)).trans ?_
        simp

lemma pyStripL_sublist (cs : List Char) : (pyStripL cs).Sublist cs :=
  ((List.rdropWhile_prefix _ _).sublist).trans (List.dropWhile_suffix _).sublist

lemma dropWhile_rdropWhile_dropWhile {α : Type} (p : α → Bool) (cs : List α) :
    ((cs.dropWhile p).rdropWhile p).dropWhile p = (cs.dropWhile p).rdropWhile p := by
  rw [List.dropWhile_eq_self_iff]
  intro hl
  obtain ⟨t, ht⟩ := List.rdropWhile_prefix p (cs.dropWhile p)
  have hbne : (cs.dropWhile p).rdropWhile p ≠ [] := List.ne_nil_of_length_pos hl
  have hane : cs.dropWhile p ≠ [] := by
    intro h
    rw [h, List.rdropWhile_nil] at hbne
    exact hbne rfl
  have hstep := congrArg List.head? ht
  rw [List.head?_append, List.head?_eq_head hbne, Option.or_some,
    List.head?_eq_head hane] at hstep
  have hbh : ((cs.dropWhile p).rdropWhile p).head hbne =
      (cs.dropWhile p).head hane := Option.some_injective _ hstep
  rw [List.get_mk_zero, hbh, List.head_dropWhile_not p cs hane]
  exact Bool.false_ne_true

lemma pyStripL_idem (cs : List Char) : pyStripL (pyStripL cs) = pyStripL cs := by
  rw [pyStripL, pyStripL, dropWhile_rdropWhile_dropWhile, List.rdropWhile_idempotent]

lemma fragOk_suffix {y x : List Char} (h : y <:+ x)
    (hx : ∀ c ∈ x.dropLast, isSentMark c = false) :
    ∀ c ∈ y.dropLast, isSentMark c = false := by
  obtain ⟨u, rfl⟩ := h
  cases y with
  | nil => simp
  | cons a b =>
    intro c hc
    apply hx
    rw [List.dropLast_append_of_ne_nil _ (List.cons_ne_nil a b)]
    exact List.mem_append_right _ hc

lemma fragOk_prefix {y x : List Char} (h : y <+: x)
    (hx : ∀ c ∈ x.dropLast, isSentMark c = false) :
    ∀ c ∈ y.dropLast, isSentMark c = false := by
  obtain ⟨t, rfl⟩ := h
  cases t with
  | nil => simpa using hx
  | cons a b =>
    intro c hc
    apply hx
    rw [List.dropLast_append_of_ne_nil _ (List.cons_ne_nil a b)]
    exact List.mem_append_left _ ((List.dropLast_sublist _).subset hc)

lemma fragOk_pyStripL {x : List Char}
    (hx : ∀ c ∈ x.dropLast, isSentMark c = false) :
    ∀ c ∈ (pyStripL x).dropLast, isSentMark c = false :=
  fragOk_prefix (List.rdropWhile_prefix _ _)
    (fragOk_suffix (List.dropWhile_suffix _) hx)

lemma split_sentencesL_of_fragOk (x : List Char) (hne : x ≠ [])
    (hstrip : pyStripL x = x)
    (hfrag : ∀ c ∈ x.dropLast, isSentMark c = false) :
    split_sentencesL x = [x] := by
  rw [split_sentencesL, hstrip, reSplit]
  have hx : x.dropLast ++ [x.getLast hne] = x := List.dropLast_append_getLast hne
  by_cases hm : isSentMark (x.getLast hne) = true
  · have h2 : reSplitGo false x [] = [x, []] := by
      rw [← hx, reSplitGo_mark_end _ _ hm [] hfrag]
      simp
    rw [h2]
    simp only [List.map_cons, List.map_nil, hstrip]
    show List.filter _ [x, pyStripL []] = [x]
    rw [show pyStripL [] = [] from rfl]
    rw [List.filter_cons, List.filter_cons]
    simp [hne]
  · have hall : ∀ c ∈ x, isSentMark c = false := by
      intro c hc
      rw [← hx] at hc
      rcases List.mem_append.mp hc with h | h
      · exact hfrag c h
      · rw [List.mem_singleton] at h
        subst h
        exact Bool.not_eq_true _ ▸ hm
    rw [reSplitGo_no_marks x [] hall]
    simp only [List.reverse_nil, List.nil_append, List.map_cons, List.map_nil, hstrip]
    rw [List.filter_cons]
    simp [hne]

lemma mem_split_sentencesL {t x : List Char} (hx : x ∈ split_sentencesL t) :
    x ≠ [] ∧ pyStripL x = x ∧ ∀ c ∈ x.dropLast, isSentMark c = false := by
  rw [split_sentencesL, List.mem_filter] at hx
  obtain ⟨hx1, hx2⟩ := hx
  obtain ⟨y, hy, rfl⟩ := List.mem_map.mp hx1
  refine ⟨by simpa using hx2, pyStripL_idem y, ?_⟩
  exact fragOk_pyStripL (reSplitGo_frag_shape _ false [] (by simp) y hy)

/-- C6.  The utterance splitter is idempotent: splitting any element of its
own output returns exactly that element as a one-element list. -/
theorem C6_splitter_idempotent (t x : String) (hx : x ∈ split_sentences t) :
    split_sentences x = [x] := by
  rw [split_sentences] at hx
  obtain ⟨l, hl, rfl⟩ := List.mem_map.mp hx
  obtain ⟨hne, hstrip, hfrag⟩ := mem_split_sentencesL hl
  rw [split_sentences]
  rw [show (String.mk l).data = l from rfl,
    split_sentencesL_of_fragOk l hne hstrip hfrag]
  rfl

/-- C6, witness: re-splitting the first utterance of a concrete two-sentence
narration returns it unchanged. -/
theorem C6_splitter_idempotent_witness :
    "你好。" ∈ split_sentences "你好。 世界！  " ∧
    split_sentences "你好。" = ["你好。"] :=
  ⟨by decide, C6_splitter_idempotent "你好。 世界！  " "你好。" (by decide)⟩

lemma sublist_flatten {α : Type} {s l : List (List α)} (h : s.Sublist l) :
    s.flatten.Sublist l.flatten := by
  induction h with
  | slnil => simp
  | cons a _ ih =>
    rw [List.flatten_cons]
    exact ih.trans (List.sublist_append_right _ _)
  | cons₂ a _ ih =>
    rw [List.flatten_cons, List.flatten_cons]
    exact List.Sublist.append (List.Sublist.refl _) ih

lemma flatten_map_pyStripL_sublist (L : List (List Char)) :
    ((L.map pyStripL).flatten).Sublist L.flatten := by
  induction L with
  | nil => simp
  | cons a L ih =>
    rw [List.map_cons, List.flatten_cons, List.flatten_cons]
    exact List.Sublist.append (pyStripL_sublist a) ih

/-- C7.  The splitter cuts exactly after the sentence-final marks `。？！…`,
keeping the mark at the end of the utterance it closes (no utterance contains
a mark before its last character), trims every utterance and discards the
empty ones, and returns them in input order (their concatenation is a
subsequence of the input); empty or all-whitespace narration yields no
utterances and therefore zero synthesis calls. -/
theorem C7_splitter_semantics :
    (∀ t : String, (∀ c ∈ t.data, isPySpace c = true) →
      split_sentences t = [] ∧ synthesisJobs t = []) ∧
    (∀ t : String, ∀ x ∈ split_sentences t,
      x ≠ "" ∧ pyStrip x = x ∧ ∀ c ∈ x.data.dropLast, isSentMark c = false) ∧
    (∀ t : String, ((split_sentences t).map String.data).flatten.Sublist t.data) := by
  refine ⟨?_, ?_, ?_⟩
  · intro t h
    have h1 : pyStripL t.data = [] := by
      rw [pyStripL, List.dropWhile_eq_nil_iff.mpr h, List.rdropWhile_nil]
    constructor
    · rw [split_sentences, split_sentencesL, h1]
      rfl
    · rw [synthesisJobs, split_sentences, split_sentencesL, h1]
      rfl
  · intro t x hx
    rw [split_sentences] at hx
    obtain ⟨l, hl, rfl⟩ := List.mem_map.mp hx
    obtain ⟨hne, hstrip, hfrag⟩ := mem_split_sentencesL hl
    refine ⟨?_, ?_, ?_⟩
    · intro hcon
      exact hne (congrArg String.data hcon)
    · rw [pyStrip, show (String.mk l).data = l from rfl, hstrip]
    · rw [show (String.mk l).data = l from rfl]
      exact hfrag
  · intro t
    have hcomp : String.data ∘ String.mk = id := rfl
    have hmapdata : ((split_sentencesL t.data).map String.mk).map String.data =
        split_sentencesL t.data := by
      rw [List.map_map, hcomp, List.map_id]
    rw [split_sentences, hmapdata]
    have h1 : (split_sentencesL t.data).Sublist
        ((reSplit (pyStripL t.data)).map pyStripL) := List.filter_sublist _
    have h2 := sublist_flatten h1
    have h3 := flatten_map_pyStripL_sublist (reSplit (pyStripL t.data))
    have h4 : ((reSplit (pyStripL t.data)).flatten).Sublist (pyStripL t.data) := by
      simpa using reSplitGo_flatten_sublist (pyStripL t.data) false []
    exact h2.trans (h3.trans (h4.trans (pyStripL_sublist _)))

/-- C7, witness: an all-whitespace narration produces no utterances and no
synthesis jobs; a concrete utterance of a two-sentence narration is
non-empty, trimmed, and carries its mark only in final position. -/
theorem C7_splitter_semantics_witness :
    (split_sentences "　 " = [] ∧ synthesisJobs "　 " = []) ∧
    ("你好。" ≠ "" ∧ pyStrip "你好。" = "你好。" ∧
      ∀ c ∈ ("你好。").data.dropLast, isSentMark c = false) :=
  ⟨C7_splitter_semantics.1 "　 " (by decide),
   C7_splitter_semantics.2.1 "你好。 世界" "你好。" (by decide)⟩

/-! ### C9 — artifact store round trip -/

lemma skipWs_eq_self {cs : List Char}
    (h : ∀ c, cs.head? = some c → isJsonWs c = false) : skipWs cs = cs := by
  cases cs with
  | nil => rfl
  | cons c rest =>
    rw [skipWs, List.dropWhile_cons, h c rfl]
    simp

lemma skipWs_cons_of_ws {c : Char} (h : isJsonWs c = true) (cs : List Char) :
    skipWs (c :: cs) = skipWs cs := by
  rw [skipWs, skipWs, List.dropWhile_cons, h]
  simp

lemma head?_append_left {α : Type} {l1 l2 : List α} {c : α} (h1 : l1 ≠ [])
    (h : (l1 ++ l2).head? = some c) : c ∈ l1 := by
  cases l1 with
  | nil => exact absurd rfl h1
  | cons x t =>
    rw [List.cons_append, List.head?_cons, Option.some_inj] at h
    subst h
    exact List.mem_cons_self _ _

lemma takeWhile_append_all {α : Type} {p : α → Bool} {l1 l2 : List α}
    (h1 : ∀ a ∈ l1, p a = true) (h2 : ∀ c, l2.head? = some c → p c = false) :
    (l1 ++ l2).takeWhile p = l1 := by
  induction l1 with
  | nil =>
    cases l2 with
    | nil => rfl
    | cons c rest => simp [List.takeWhile_cons, h2 c rfl]
  | cons a t ih =>
    rw [List.cons_append, List.takeWhile_cons, h1 a (List.mem_cons_self _ _)]
    simp only [if_true]
    rw [ih (fun b hb => h1 b (List.mem_cons_of_mem _ hb))]

lemma dropWhile_append_all {α : Type} {p : α → Bool} {l1 l2 : List α}
    (h1 : ∀ a ∈ l1, p a = true) (h2 : ∀ c, l2.head? = some c → p c = false) :
    (l1 ++ l2).dropWhile p = l2 := by
  induction l1 with
  | nil =>
    cases l2 with
    | nil => rfl
    | cons c rest => simp [List.dropWhile_cons, h2 c rfl]
  | cons a t ih =>
    rw [List.cons_append, List.dropWhile_cons, h1 a (List.mem_cons_self _ _)]
    simp only [if_true]
    exact ih (fun b hb => h1 b (List.mem_cons_of_mem _ hb))

lemma digitVal_decimalChar {d : Nat} (hd : d < 10) : digitVal (decimalChar d) = d := by
  interval_cases d <;> rfl

lemma isDigitChar_decimalChar {d : Nat} (hd : d < 10) :
    isDigitChar (decimalChar d) = true := by
  interval_cases d <;> rfl

lemma isJsonWs_of_digit {c : Char} (h : isDigitChar c = true) : isJsonWs c = false := by
  rw [isDigitChar, Bool.and_eq_true, decide_eq_true_eq, decide_eq_true_eq] at h
  rw [isJsonWs]
  simp only [Bool.or_eq_false_iff, decide_eq_false_iff_not]
  refine ⟨⟨⟨?_, ?_⟩, ?_⟩, ?_⟩ <;> intro hc <;> subst hc <;> revert h <;> decide

lemma digitsValue_append_singleton (l : List Char) (c : Char) :
    digitsValue (l ++ [c]) = digitsValue l * 10 + digitVal c := by
  rw [digitsValue, digitsValue, List.foldl_append]
  rfl

lemma digitsValue_rev_digits (L : List Nat) (hL : ∀ d ∈ L, d < 10) :
    digitsValue ((L.map decimalChar).reverse) = Nat.ofDigits 10 L := by
  induction L with
  | nil => rfl
  | cons d T ih =>
    rw [List.map_cons, List.reverse_cons, digitsValue_append_singleton,
      ih (fun e he => hL e (List.mem_cons_of_mem _ he)),
      digitVal_decimalChar (hL d (List.mem_cons_self _ _)), Nat.ofDigits_cons]
    omega

lemma digitsValue_natDigitsL (n : Nat) : digitsValue (natDigitsL n) = n := by
  rw [natDigitsL]
  by_cases h : n = 0
  · subst h; rfl
  · rw [if_neg h,
      digitsValue_rev_digits _ (fun d hd => Nat.digits_lt_base (by norm_num) hd),
      Nat.ofDigits_digits]

lemma natDigitsL_digits (n : Nat) : ∀ c ∈ natDigitsL n, isDigitChar c = true := by
  intro c hc
  rw [natDigitsL] at hc
  by_cases h : n = 0
  · rw [if_pos h, List.mem_singleton] at hc
    subst hc
    rfl
  · rw [if_neg h, List.mem_reverse] at hc
    obtain ⟨d, hd, rfl⟩ := List.mem_map.mp hc
    exact isDigitChar_decimalChar (Nat.digits_lt_base (by norm_num) hd)

lemma natDigitsL_ne_nil (n : Nat) : natDigitsL n ≠ [] := by
  rw [natDigitsL]
  by_cases h : n = 0
  · subst h; simp
  · rw [if_neg h]
    simp only [ne_eq, List.reverse_eq_nil_iff, List.map_eq_nil_iff]
    exact Nat.digits_ne_nil_iff_ne_zero.mpr h

lemma parseNat_render (n : Nat) (rest : List Char)
    (hnd : ∀ c, rest.head? = some c → isDigitChar c = false) :
    parseNat (natDigitsL n ++ rest) = some (n, rest) := by
  have hsw : skipWs (natDigitsL n ++ rest) = natDigitsL n ++ rest := by
    apply skipWs_eq_self
    intro c hc
    exact isJsonWs_of_digit (natDigitsL_digits n c
      (head?_append_left (natDigitsL_ne_nil n) hc))
  rw [parseNat, hsw, takeWhile_append_all (natDigitsL_digits n) hnd,
    dropWhile_append_all (natDigitsL_digits n) hnd, if_neg (natDigitsL_ne_nil n),
    digitsValue_natDigitsL]

lemma digitsValue_singleton (c : Char) : digitsValue [c] = digitVal c := by
  show 0 * 10 + digitVal c = digitVal c
  omega

lemma digitsValue_pair (a b : Char) :
    digitsValue [a, b] = digitVal a * 10 + digitVal b := by
  show (0 * 10 + digitVal a) * 10 + digitVal b = _
  omega

lemma digitsValue_triple (a b c : Char) :
    digitsValue [a, b, c] = (digitVal a * 10 + digitVal b) * 10 + digitVal c := by
  show ((0 * 10 + digitVal a) * 10 + digitVal b) * 10 + digitVal c = _
  omega

lemma fracDigits3_digits (f : Nat) (hf : f < 1000) :
    ∀ c ∈ fracDigits3 f, isDigitChar c = true := by
  intro c hc
  rw [fracDigits3] at hc
  split_ifs at hc with h1 h2 h3
  · simp only [List.mem_singleton] at hc
    subst hc
    rfl
  · simp only [List.mem_singleton] at hc
    subst hc
    exact isDigitChar_decimalChar (by omega)
  · simp only [List.mem_cons, List.not_mem_nil, or_false] at hc
    rcases hc with rfl | rfl <;> exact isDigitChar_decimalChar (by omega)
  · simp only [List.mem_cons, List.not_mem_nil, or_false] at hc
    rcases hc with rfl | rfl | rfl <;> exact isDigitChar_decimalChar (by omega)

lemma fracDigits3_ne_nil (f : Nat) : fracDigits3 f ≠ [] := by
  rw [fracDigits3]
  split_ifs <;> simp

lemma fracDigits3_value (f : Nat) (hf : f < 1000) :
    (digitsValue (fracDigits3 f) : ℚ) / (10 : ℚ) ^ (fracDigits3 f).length =
      (f : ℚ) / 1000 := by
  rw [fracDigits3]
  split_ifs with h1 h2 h3
  · have hz : f = 0 := by omega
    subst hz
    norm_num
    rfl
  · rw [digitsValue_singleton, digitVal_decimalChar (show f / 100 < 10 by omega),
      List.length_singleton]
    obtain ⟨m, hm⟩ : ∃ m, f = 100 * m := ⟨f / 100, by omega⟩
    subst hm
    rw [show 100 * m / 100 = m by omega]
    push_cast
    ring
  · rw [digitsValue_pair, digitVal_decimalChar (show f / 100 < 10 by omega),
      digitVal_decimalChar (show f / 10 % 10 < 10 by omega),
      show (f / 100) * 10 + f / 10 % 10 = f / 10 by omega,
      List.length_cons, List.length_singleton]
    obtain ⟨m, hm⟩ : ∃ m, f = 10 * m := ⟨f / 10, by omega⟩
    subst hm
    rw [show 10 * m / 10 = m by omega]
    push_cast
    ring
  · rw [digitsValue_triple, digitVal_decimalChar (show f / 100 < 10 by omega),
      digitVal_decimalChar (show f / 10 % 10 < 10 by omega),
      digitVal_decimalChar (show f % 10 < 10 by omega),
      show ((f / 100) * 10 + f / 10 % 10) * 10 + f % 10 = f by omega,
      List.length_cons, List.length_cons, List.length_singleton]
    norm_num

lemma renderTime_wf (q : ℚ) (hq : WfTime q) :
    ∃ k : Nat, q = (k : ℚ) / 1000 ∧
      renderTime q = natDigitsL (k / 1000) ++ '.' :: fracDigits3 (k % 1000) := by
  obtain ⟨k, rfl⟩ := hq
  refine ⟨k, rfl, ?_⟩
  rw [renderTime]
  have h1 : ((k : ℚ) / 1000) * 1000 = (k : ℚ) := by
    field_simp
  rw [h1]
  rw [Int.floor_natCast, Int.toNat_natCast]

lemma parseQ_render (q : ℚ) (hq : WfTime q) (rest : List Char)
    (hnd : ∀ c, rest.head? = some c → isDigitChar c = false) :
    parseQ (renderTime q ++ rest) = some (q, rest) := by
  obtain ⟨k, rfl, hrt⟩ := renderTime_wf q hq
  rw [hrt]
  have hfd := fracDigits3_digits (k % 1000) (Nat.mod_lt _ (by norm_num))
  rw [List.append_assoc, List.cons_append]
  rw [parseQ, parseNat_render _ _ (by intro c hc; simp at hc; subst hc; rfl)]
  simp only [if_pos rfl]
  rw [takeWhile_append_all hfd hnd, dropWhile_append_all hfd hnd,
    if_neg (fracDigits3_ne_nil _),
    fracDigits3_value (k % 1000) (Nat.mod_lt _ (by norm_num))]
  have hsum : ((k / 1000 : Nat) : ℚ) + ((k % 1000 : Nat) : ℚ) / 1000 = (k : ℚ) / 1000 := by
    have hk : (1000 : ℚ) * ((k / 1000 : Nat) : ℚ) + ((k % 1000 : Nat) : ℚ) = (k : ℚ) := by
      exact_mod_cast congrArg (fun n : Nat => (n : ℚ)) (Nat.div_add_mod k 1000)
    field_simp
    linarith
  rw [hsum]
  simp

lemma hexVal_hexDigitChar {d : Nat} (hd : d < 16) : hexVal (hexDigitChar d) = some d := by
  interval_cases d <;> rfl

lemma parseStringBody_encode (s : List Char) (rest : List Char) :
    parseStringBody (encodeStr s ++ '"' :: rest) = some (s, rest) := by
  induction s with
  | nil =>
    show parseStringBody ('"' :: rest) = some ([], rest)
    rw [parseStringBody.eq_def]
    simp
  | cons c cs ih =>
    have hstep : encodeStr (c :: cs) = encodeChar c ++ encodeStr cs := by
      rw [encodeStr, encodeStr, List.map_cons, List.flatten_cons]
    rw [hstep, List.append_assoc, encodeChar]
    split_ifs with h1 h2 h3 h4 h5 h6 h7 h8
    · subst h1; rw [List.cons_append, List.cons_append, parseStringBody.eq_def]
      simp [escDecode, ih]
    · subst h2; rw [List.cons_append, List.cons_append, parseStringBody.eq_def]
      simp [escDecode, ih]
    · subst h3; rw [List.cons_append, List.cons_append, parseStringBody.eq_def]
      simp [escDecode, ih]
    · subst h4; rw [List.cons_append, List.cons_append, parseStringBody.eq_def]
      simp [escDecode, ih]
    · subst h5; rw [List.cons_append, List.cons_append, parseStringBody.eq_def]
      simp [escDecode, ih]
    · subst h6; rw [List.cons_append, List.cons_append, parseStringBody.eq_def]
      simp [escDecode, ih]
    · subst h7; rw [List.cons_append, List.cons_append, parseStringBody.eq_def]
      simp [escDecode, ih]
    · have hhi : c.toNat / 16 < 16 := by omega
      have hlo : c.toNat % 16 < 16 := by omega
      have harith : c.toNat / 16 * 16 + c.toNat % 16 = c.toNat := by omega
      simp only [List.cons_append]
      rw [parseStringBody.eq_def]
      simp only [hexVal_hexDigitChar hhi, hexVal_hexDigitChar hlo,
        show hexVal '0' = some 0 from rfl]
      simp [harith, Char.ofNat_toNat, ih]
    · rw [List.singleton_append, parseStringBody.eq_def]
      simp [h1, h2, h8, ih]

lemma expectLit_self (lit : List Char) (rest : List Char) :
    expectLit lit (lit ++ rest) = some rest := by
  induction lit with
  | nil => rfl
  | cons c t ih =>
    rw [List.cons_append]
    simp [expectLit, ih]

lemma expectChar_render {c : Char} (hc : isJsonWs c = false) (rest : List Char) :
    expectChar c (c :: rest) = some rest := by
  rw [expectChar, skipWs_eq_self (by
    intro d hd
    rw [List.head?_cons, Option.some_inj] at hd
    subst hd
    exact hc)]
  simp

lemma expectChar_ws {w : Char} (hw : isJsonWs w = true) (c : Char) (cs : List Char) :
    expectChar c (w :: cs) = expectChar c cs := by
  rw [expectChar, expectChar, skipWs_cons_of_ws hw]

lemma parseJString_render (s : String) (rest : List Char) :
    parseJString (renderJString s ++ rest) = some (s, rest) := by
  rw [renderJString, List.cons_append, parseJString]
  rw [skipWs_eq_self (by
    intro d hd
    rw [List.head?_cons, Option.some_inj] at hd
    subst hd
    rfl)]
  have hshape : (encodeStr s.data ++ ['"']) ++ rest = encodeStr s.data ++ '"' :: rest := by
    simp
  rw [hshape]
  simp [parseStringBody_encode]

lemma parseJString_ws (cs : List Char) : parseJString (' ' :: cs) = parseJString cs := by
  rw [parseJString, parseJString, skipWs_cons_of_ws (show isJsonWs ' ' = true from rfl)]

lemma parseNat_ws (cs : List Char) : parseNat (' ' :: cs) = parseNat cs := by
  rw [parseNat, parseNat, skipWs_cons_of_ws (show isJsonWs ' ' = true from rfl)]

lemma parseQ_ws (cs : List Char) : parseQ (' ' :: cs) = parseQ cs := by
  rw [parseQ, parseQ, parseNat_ws]

lemma expectKey_keyPrefix (key : List Char) (rest : List Char) :
    expectKey key (keyPrefix key ++ rest) = some (' ' :: rest) := by
  rw [keyPrefix, expectKey]
  simp only [List.cons_append]
  rw [skipWs_cons_of_ws (show isJsonWs '\n' = true from rfl),
    skipWs_cons_of_ws (show isJsonWs ' ' = true from rfl),
    skipWs_cons_of_ws (show isJsonWs ' ' = true from rfl),
    skipWs_cons_of_ws (show isJsonWs ' ' = true from rfl),
    skipWs_cons_of_ws (show isJsonWs ' ' = true from rfl)]
  rw [skipWs_eq_self (by
    intro d hd
    rw [List.head?_cons, Option.some_inj] at hd
    subst hd
    rfl)]
  have hshape : ('"' :: ((key ++ '"' :: ':' :: ' ' :: []) ++ rest)) =
      ('"' :: (key ++ ['"'])) ++ (':' :: ' ' :: rest) := by
    simp
  rw [hshape, expectLit_self]
  simp only
  rw [expectChar_render (show isJsonWs ':' = false from rfl)]

lemma head_comma_not_digit : ∀ (x : List Char) (c : Char),
    (',' :: x).head? = some c → isDigitChar c = false := by
  intro x c hc
  rw [List.head?_cons, Option.some_inj] at hc
  subst hc
  rfl

lemma parseQMember_render (key : List Char) (q : ℚ) (hq : WfTime q) (tail : List Char)
    (hnd : ∀ c, tail.head? = some c → isDigitChar c = false) :
    parseQMember key (',' :: (keyPrefix key ++ (renderTime q ++ tail))) = some (q, tail) := by
  rw [parseQMember, expectChar_render (show isJsonWs ',' = false from rfl)]
  simp only
  rw [expectKey_keyPrefix]
  simp only
  rw [parseQ_ws, parseQ_render q hq tail hnd]

lemma parseStrMember_render (key : List Char) (s : String) (tail : List Char) :
    parseStrMember key (',' :: (keyPrefix key ++ (renderJString s ++ tail))) =
      some (s, tail) := by
  rw [parseStrMember, expectChar_render (show isJsonWs ',' = false from rfl)]
  simp only
  rw [expectKey_keyPrefix]
  simp only
  rw [parseJString_ws, parseJString_render]

lemma parseTimeMembers_render (st et du : ℚ) (hst : WfTime st) (het : WfTime et)
    (hdu : WfTime du) (tail : List Char) :
    parseTimeMembers (',' :: (keyPrefix ("start_time").data ++ (renderTime st ++
        (',' :: (keyPrefix ("end_time").data ++ (renderTime et ++
        (',' :: (keyPrefix ("duration").data ++ (renderTime du ++
        (',' :: tail)))))))))) = some ((st, et, du), ',' :: tail) := by
  rw [parseTimeMembers, parseQMember_render _ st hst _ (head_comma_not_digit _)]
  simp only
  rw [parseQMember_render _ et het _ (head_comma_not_digit _)]
  simp only
  rw [parseQMember_render _ du hdu _ (head_comma_not_digit _)]

lemma parseStrMembers_render (ap fp sub : String) (tail : List Char) :
    parseStrMembers (',' :: (keyPrefix ("audio_path").data ++ (renderJString ap ++
        (',' :: (keyPrefix ("frame_path").data ++ (renderJString fp ++
        (',' :: (keyPrefix ("subtitle_text").data ++ (renderJString sub ++
        tail))))))))) = some ((ap, fp, sub), tail) := by
  rw [parseStrMembers, parseStrMember_render]
  simp only
  rw [parseStrMember_render]
  simp only
  rw [parseStrMember_render]

lemma parseRecord_render (r : SceneRecord) (hr : WfRecord r) (tail : List Char) :
    parseRecord (renderRecord r ++ tail) = some (r, tail) := by
  obtain ⟨hst, het, hdu⟩ := hr
  rw [renderRecord]
  simp only [List.cons_append, List.append_assoc, List.nil_append]
  rw [parseRecord, expectChar_render (show isJsonWs '\x7b' = false from rfl)]
  simp only
  rw [expectKey_keyPrefix]
  simp only
  rw [parseNat_ws, parseNat_render _ _ (head_comma_not_digit _)]
  simp only
  rw [parseTimeMembers_render _ _ _ hst het hdu]
  simp only
  rw [parseStrMembers_render]
  simp only
  rw [expectChar_ws (show isJsonWs '\n' = true from rfl),
    expectChar_ws (show isJsonWs ' ' = true from rfl),
    expectChar_ws (show isJsonWs ' ' = true from rfl),
    expectChar_render (show isJsonWs '\x7d' = false from rfl)]

lemma parseRecord_ws {w : Char} (hw : isJsonWs w = true) (cs : List Char) :
    parseRecord (w :: cs) = parseRecord cs := by
  rw [parseRecord, parseRecord, expectChar_ws hw]

lemma parseRecordsAux_ws {w : Char} (hw : isJsonWs w = true) (fuel : Nat) (cs : List Char) :
    parseRecordsAux (fuel + 1) (w :: cs) = parseRecordsAux (fuel + 1) cs := by
  simp only [parseRecordsAux, parseRecord_ws hw]

lemma parseRecordsAux_render : ∀ (rs : List SceneRecord) (fuel : Nat),
    (∀ r ∈ rs, WfRecord r) → rs ≠ [] → rs.length ≤ fuel →
    parseRecordsAux fuel (joinRecords (rs.map renderRecord) ++ '\n' :: ']' :: []) =
      some (rs, ([] : List Char)) := by
  intro rs
  induction rs with
  | nil => intro fuel _ hne _; exact absurd rfl hne
  | cons r t ih =>
    intro fuel hwf _ hfuel
    match fuel, hfuel with
    | f + 1, hfuel =>
      cases t with
      | nil =>
        simp only [List.map_cons, List.map_nil, joinRecords]
        rw [parseRecordsAux, parseRecord_render r (hwf r (by simp))]
        simp only
        rw [show skipWs ('\n' :: ']' :: []) = ']' :: [] from rfl]
        rfl
      | cons t0 t1 =>
        simp only [List.map_cons, joinRecords, List.append_assoc, List.cons_append]
        rw [parseRecordsAux, parseRecord_render r (hwf r (by simp))]
        simp only
        rw [skipWs_eq_self (by
          intro c hc
          rw [List.head?_cons, Option.some_inj] at hc
          subst hc
          rfl)]
        simp only [if_true]
        have hf1 : 1 ≤ f := by
          simp only [List.length_cons] at hfuel
          omega
        match f, hf1 with
        | f2 + 1, _ =>
          rw [parseRecordsAux_ws (show isJsonWs '\n' = true from rfl),
            parseRecordsAux_ws (show isJsonWs ' ' = true from rfl),
            parseRecordsAux_ws (show isJsonWs ' ' = true from rfl)]
          rw [show (joinRecords (renderRecord t0 :: t1.map renderRecord)) =
              (joinRecords ((t0 :: t1).map renderRecord)) by rw [List.map_cons]]
          rw [ih (f2 + 1) (fun x hx => hwf x (List.mem_cons_of_mem r hx))
            (List.cons_ne_nil t0 t1) (by
              simp only [List.length_cons] at hfuel ⊢
              omega)]

lemma joinRecords_cons_shape (r : SceneRecord) (t : List SceneRecord) :
    ∃ zs, joinRecords ((r :: t).map renderRecord) = renderRecord r ++ zs := by
  cases t with
  | nil => exact ⟨[], by simp [joinRecords]⟩
  | cons y ys =>
    exact ⟨',' :: '\n' :: ' ' :: ' ' :: joinRecords (renderRecord y :: ys.map renderRecord),
      by simp [joinRecords]⟩

lemma joinRecords_head (r : SceneRecord) (t : List SceneRecord) (tail : List Char) :
    ∃ zs, joinRecords ((r :: t).map renderRecord) ++ tail = '\x7b' :: zs := by
  obtain ⟨ys, hys⟩ := joinRecords_cons_shape r t
  rw [hys, renderRecord]
  simp only [List.cons_append, List.append_assoc]
  exact ⟨_, rfl⟩

lemma length_le_joinRecords (rs : List SceneRecord) :
    rs.length ≤ (joinRecords (rs.map renderRecord)).length := by
  induction rs with
  | nil => simp [joinRecords]
  | cons r t ih =>
    cases t with
    | nil =>
      simp only [List.map_cons, List.map_nil, joinRecords, List.length_cons, List.length_nil]
      rw [renderRecord]
      simp only [List.length_cons]
      omega
    | cons y ys =>
      simp only [List.map_cons, joinRecords, List.length_append, List.length_cons] at ih ⊢
      omega

/-- C9: the artifact store round-trips. For every ordered sequence of scene
records whose time fields are well-formed stored times (a whole number of
milliseconds, the shape `round(x, 3)` of a nonnegative time always produces),
reading back a written checkpoint (`json.load` after
`json.dump(..., ensure_ascii=False, indent=2)`) yields the same sequence
field-for-field, with array order preserved and non-ASCII text preserved
verbatim: `read_artifact (write_artifact rs) = some rs`. -/
theorem C9_artifact_roundtrip (rs : List SceneRecord) (h : ∀ r ∈ rs, WfRecord r) :
    read_artifact (write_artifact rs) = some rs := by
  cases rs with
  | nil => rfl
  | cons r t =>
    obtain ⟨zs, hzs⟩ := joinRecords_head r t ('\n' :: ']' :: [])
    have hd : (write_artifact (r :: t)).data =
        '[' :: '\n' :: ' ' :: ' ' ::
          (joinRecords ((r :: t).map renderRecord) ++ '\n' :: ']' :: []) := by
      show renderArtifact (r :: t) = _
      rw [renderArtifact, if_neg (List.cons_ne_nil r t)]
    rw [read_artifact, hd, expectChar_render (show isJsonWs '[' = false from rfl)]
    simp only
    rw [if_neg (by
      rw [skipWs_cons_of_ws (show isJsonWs '\n' = true from rfl),
        skipWs_cons_of_ws (show isJsonWs ' ' = true from rfl),
        skipWs_cons_of_ws (show isJsonWs ' ' = true from rfl), hzs,
        skipWs_eq_self (by
          intro c hc
          rw [List.head?_cons, Option.some_inj] at hc
          subst hc
          rfl)]
      simp)]
    rw [parseRecordsAux_ws (show isJsonWs '\n' = true from rfl),
      parseRecordsAux_ws (show isJsonWs ' ' = true from rfl),
      parseRecordsAux_ws (show isJsonWs ' ' = true from rfl)]
    rw [parseRecordsAux_render (r :: t) _ h (List.cons_ne_nil r t) (by
      have hjl := length_le_joinRecords (r :: t)
      simp only [List.length_cons, List.length_append] at hjl ⊢
      omega)]
    simp only
    rw [if_pos (show skipWs ([] : List Char) = [] from rfl)]

/-- Witness for C9 at a concrete two-record artifact carrying non-ASCII
subtitle text. -/
theorem C9_artifact_roundtrip_witness :
    read_artifact (write_artifact
      [⟨1, 1/2, 5/2, 2, "output/audio/scene_0001.wav", "output/frames/scene_0001.jpg",
        "你好，世界"⟩,
       ⟨2, 5/2, 11/2, 3, "output/audio/scene_0002.wav", "output/frames/scene_0002.jpg",
        ""⟩]) =
      some [⟨1, 1/2, 5/2, 2, "output/audio/scene_0001.wav", "output/frames/scene_0001.jpg",
        "你好，世界"⟩,
       ⟨2, 5/2, 11/2, 3, "output/audio/scene_0002.wav", "output/frames/scene_0002.jpg",
        ""⟩] :=
  C9_artifact_roundtrip _ (by
    intro r hr
    rw [List.mem_cons, List.mem_singleton] at hr
    cases hr with
    | inl h1 =>
      subst h1
      exact ⟨⟨500, by norm_num⟩, ⟨2500, by norm_num⟩, ⟨2000, by norm_num⟩⟩
    | inr h2 =>
      subst h2
      exact ⟨⟨2500, by norm_num⟩, ⟨5500, by norm_num⟩, ⟨3000, by norm_num⟩⟩)
